import Mathlib

/-!
Verification of the easy-s3-clone protocol/authorization engine (`app.py`).

The development shallowly embeds the Python source: each Lean definition
mirrors one Python function (same name where possible).  Machine-level
details are modelled as follows:

* strings are Lean `String` (a wrapped `List Char`; Python `str` compares
  code-point-lexicographically, exactly like the char-list comparison
  functions defined below);
* the filesystem is an explicit tree (`FSNode`); paths are rendered both as
  strings (for `os.path` reasoning, claim C1) and as segment lists (for the
  object operations);
* external primitives that the claims treat as opaque (MD5 hex digest,
  HMAC-SHA1/base64 signing, `dateutil` parsing, `datetime.isoformat`) are
  function parameters collected in `Ctx`;
* Python exceptions become the `Err` type: the protocol errors of
  `exception.py` plus the unclassified built-in exceptions the code can
  raise (`KeyError`, `TypeError`, `IndexError`, ...).
-/

/-! ## Generic character/string utilities (Python `str` operations) -/

/-- Python `s.split(sep)` with an explicit one-char separator: splits on every
occurrence, keeping empty groups. -/
def splitChar (sep : Char) : List Char → List (List Char)
  | [] => [[]]
  | c :: cs =>
    match splitChar sep cs with
    | [] => [[]]
    | g :: gs => if c = sep then [] :: g :: gs else (c :: g) :: gs

/-- Python `'/'`-separator split, used by `posixpath.normpath`. -/
def splitSlash (l : List Char) : List (List Char) := splitChar '/' l

/-- Python `'/'.join` on char lists. -/
def joinSlashC : List (List Char) → List Char
  | [] => []
  | [x] => x
  | x :: y :: ys => x ++ '/' :: joinSlashC (y :: ys)

/-- Python string `<` (strict code-point lexicographic order). -/
def lexLt : List Char → List Char → Bool
  | [], [] => false
  | [], _ :: _ => true
  | _ :: _, [] => false
  | a :: as, b :: bs =>
    if a.toNat < b.toNat then true
    else if b.toNat < a.toNat then false
    else lexLt as bs

/-- Python string `<` on `String`. -/
def strLt (a b : String) : Bool := lexLt a.data b.data

/-- Python string `<=` on `String` (total order: `a <= b ↔ ¬ b < a`). -/
def strLe (a b : String) : Bool := ! strLt b a

/-- Python `s.lower()` (ASCII case folding, which is all the header
alphabet needs). -/
def lowerStr (s : String) : String := ⟨s.data.map Char.toLower⟩

/-- Python `'/'.join` on strings; inverse of splitting a clean key. -/
def joinSlash : List String → String
  | [] => ""
  | [x] => x
  | x :: y :: ys => x ++ "/" ++ joinSlash (y :: ys)

/-- Occurrences of `'/'` in a string (used to count key components). -/
def countSlash (s : String) : Nat := s.data.count '/'

/-! ## Errors

Protocol errors from `exception.py` (subclasses of `AppException`, turned
into protocol error responses by the flask error handler), plus the
unclassified Python built-in exceptions reachable in `app.py` (these
surface as generic 500 errors, not protocol errors). -/

inductive Err where
  | InvalidArgument
  | InvalidAccessKeyId
  | SignatureDoesNotMatch
  | AccessDenied
  | NoSuchBucket
  | NoSuchKey
  | NotImplemented
  | PyKeyError
  | PyTypeError
  | PyIndexError
  | PyValueError
  | PyOSError
  deriving DecidableEq, Repr

/-- Whether an error is one of the protocol errors (an `AppException`). -/
def Err.isProtocol : Err → Bool
  | .InvalidArgument | .InvalidAccessKeyId | .SignatureDoesNotMatch
  | .AccessDenied | .NoSuchBucket | .NoSuchKey | .NotImplemented => true
  | _ => false

/-! ## Paths (`os.path` on POSIX): embedding for `convert_local_path`

`convert_local_path(bucket_name, remote_path)` in the source is
`os.path.abspath(os.path.join(root_path, remote_path))`.  The CPython
`posixpath` algorithms are reproduced verbatim on char lists. -/

/-- Leading-slash count as computed by `posixpath.normpath`: `0` for a
relative path, `2` for exactly two leading slashes, else `1`. -/
def initialSlashes (p : List Char) : Nat :=
  if p.take 1 = ['/'] then
    if p.take 2 = ['/', '/'] ∧ p.take 3 ≠ ['/', '/', '/'] then 2 else 1
  else 0

/-- One step of the `normpath` component loop (CPython `posixpath.normpath`):
skip empty and `.` components, append ordinary components, and let `..` pop
the last component (except at the root of an absolute path, where it is
dropped, or on top of another `..` in a relative path, where it stacks). -/
def normStep (slashes : Nat) (acc : List (List Char)) (comp : List Char) : List (List Char) :=
  if comp = [] ∨ comp = ['.'] then acc
  else if comp ≠ ['.', '.'] ∨ (slashes = 0 ∧ acc = []) ∨ acc.getLast? = some ['.', '.'] then
    acc ++ [comp]
  else if acc ≠ [] then acc.dropLast
  else acc

/-- CPython `posixpath.normpath` on char lists. -/
def normpath (p : List Char) : List Char :=
  if p = [] then ['.']
  else
    let slashes := initialSlashes p
    let comps := (splitSlash p).foldl (normStep slashes) []
    let res := List.replicate slashes '/' ++ joinSlashC comps
    if res = [] then ['.'] else res

/-- CPython `posixpath.join` for two components: an absolute second argument
discards the first; otherwise the parts are joined with a `/` unless the
first already ends in one (or is empty). -/
def os_join (a b : List Char) : List Char :=
  if b.take 1 = ['/'] then b
  else if a = [] ∨ a.getLast? = some '/' then a ++ b
  else a ++ '/' :: b

/-- CPython `posixpath.abspath`: prepend the working directory to relative
paths, then normalize. -/
def os_abspath (cwd p : List Char) : List Char :=
  if p.take 1 = ['/'] then normpath p else normpath (os_join cwd p)

/-- Source `convert_local_path` (app.py lines 181-188):
`os.path.abspath(os.path.join(root_path, remote_path))`, with the
process working directory as an explicit parameter. -/
def convert_local_path (cwd root remote : String) : String :=
  ⟨os_abspath cwd.data (os_join root.data remote.data)⟩

/-- Python `s.startswith(p)` on char lists. -/
def startsWithC : List Char → List Char → Bool
  | [], _ => true
  | _ :: _, [] => false
  | a :: as, b :: bs => a = b && startsWithC as bs

/-- Python `s.startswith(p)` on strings (first argument is the shorter one). -/
def startsWithS (p s : String) : Bool := startsWithC p.data s.data

/-- Path `p` stays inside `root`: it is `root` itself or has `root ++ "/"` as
a leading part.  This is the spec's "descendant of the bucket's root". -/
def isUnder (root p : String) : Bool :=
  p = root || startsWithS (root ++ "/") p

/-! ## Credential store (`StorageSettings`, app.py lines 42-83) -/

/-- Python dict lookup on an association list (first match). -/
def alookup {α : Type} : List (String × α) → String → Option α
  | [], _ => none
  | (k, v) :: rest, key => if k = key then some v else alookup rest key

/-- One credential of a bucket (`credentials[]` entry of `settings.yaml`). -/
structure Credential where
  access_key_id : String
  secret_access_key : String
  permission : List (String × Bool)
  deriving DecidableEq, Repr

/-- One bucket of the configuration. -/
structure Bucket where
  root_path : String
  credentials : List Credential
  deriving DecidableEq, Repr

/-- The loaded `settings.yaml` (`StorageSettings.settings`). -/
structure Settings where
  virtual_host : String
  buckets : List (String × Bucket)
  deriving DecidableEq, Repr

/-- Source `StorageSettings.has_bucket`. -/
def has_bucket (s : Settings) (bucket_name : String) : Bool :=
  (alookup s.buckets bucket_name).isSome

/-- Source `StorageSettings.get_credential`: filter the bucket's credentials
by access-key id and return the result only when it is unique.  Indexing an
absent bucket raises a Python `KeyError`. -/
def get_credential (s : Settings) (bucket_name access_key_id : String) :
    Except Err (Option Credential) :=
  match alookup s.buckets bucket_name with
  | none => .error .PyKeyError
  | some b =>
    match b.credentials.filter (fun c => c.access_key_id == access_key_id) with
    | [c] => .ok (some c)
    | _ => .ok none

/-- Source `StorageSettings.get_secret_access_key`. -/
def get_secret_access_key (s : Settings) (bucket_name access_key_id : String) :
    Except Err (Option String) :=
  match get_credential s bucket_name access_key_id with
  | .error e => .error e
  | .ok none => .ok none
  | .ok (some c) => .ok (some c.secret_access_key)

/-- Source `StorageSettings.permission_check`
(`if not credential['permission'][key]: raise exception.AccessDenied()`):
subscripting `None` raises `TypeError`, a missing action key raises
`KeyError`, a falsy value raises `AccessDenied`. -/
def permission_check (s : Settings) (bucket_name access_key_id key : String) :
    Except Err Unit :=
  match get_credential s bucket_name access_key_id with
  | .error e => .error e
  | .ok none => .error .PyTypeError
  | .ok (some c) =>
    match alookup c.permission key with
    | none => .error .PyKeyError
    | some v => if v then .ok () else .error .AccessDenied

/-! ## Request model and header validation (app.py lines 94-157) -/

/-- Parsed inbound request as the flask/werkzeug transport delivers it.
Header names are stored in werkzeug's canonical title-cased spelling
(werkzeug rebuilds them from the WSGI environ via `.title()`), which is why
exact-name lookup below models werkzeug's case-insensitive `headers.get`. -/
structure Req where
  headers : List (String × String)
  args : List (String × String)
  data : List Nat
  deriving DecidableEq, Repr

/-- The transport's `request.headers.get(k)`. -/
def hget (hs : List (String × String)) (k : String) : Option String :=
  alookup hs k

/-- Python `'{}'.format(x)` applied to an optional string (`None` prints as
`"None"`). -/
def fmtOpt (o : Option String) : String :=
  match o with
  | some s => s
  | none => "None"

/-- Source `validation_request_header`: raise `InvalidArgument` at the first
required key missing from the headers. -/
def validation_request_header (hs : List (String × String)) :
    List String → Except Err Unit
  | [] => .ok ()
  | k :: ks =>
    if (hget hs k).isSome then validation_request_header hs ks
    else .error .InvalidArgument

/-- Source `validation_request_authorization`: the Authorization header must
split on spaces into exactly `['AWS', cred]` with exactly one `:` in `cred`. -/
def validation_request_authorization (hs : List (String × String)) :
    Except Err Unit :=
  match hget hs "Authorization" with
  | none => .error .PyTypeError
  | some auth =>
    match splitChar ' ' auth.data with
    | [p0, p1] =>
      if p0 ≠ "AWS".data then .error .InvalidArgument
      else if p1.count ':' ≠ 1 then .error .InvalidArgument
      else .ok ()
    | _ => .error .InvalidArgument

/-- Source `get_request_access_key_id`:
`request.headers.get('Authorization').split(' ')[1].split(':')[0]`. -/
def get_request_access_key_id (hs : List (String × String)) : Except Err String :=
  match hget hs "Authorization" with
  | none => .error .PyTypeError
  | some auth =>
    match splitChar ' ' auth.data with
    | _ :: p1 :: _ =>
      match splitChar ':' p1 with
      | g :: _ => .ok ⟨g⟩
      | [] => .error .PyIndexError
    | _ => .error .PyIndexError

/-- Source `validation_date`.  Times are epoch seconds; `parseDate` stands
for `dateutil.parser.parse` (`none` = unparseable).  The source's
`except exception.TypeError` clause names an attribute of the app's own
exception module, so dateutil's `ValueError` on an unparseable date is not
converted to `InvalidArgument`; it propagates as an unclassified error.
The skew check rejects only when `now - date` exceeds 3 minutes. -/
def validation_date (parseDate : String → Option Int) (now : Int)
    (hs : List (String × String)) : Except Err Unit :=
  match hget hs "Date" with
  | none => .error .PyTypeError
  | some d =>
    match parseDate d with
    | none => .error .PyValueError
    | some t => if now - t > 180 then .error .InvalidArgument else .ok ()

/-- Decimal value of a nonempty digit string (`none` on any non-digit). -/
def digitsVal : List Char → Option Nat
  | [] => none
  | l =>
    l.foldl
      (fun acc c =>
        match acc with
        | none => none
        | some n => if '0'.toNat ≤ c.toNat ∧ c.toNat ≤ '9'.toNat
                    then some (n * 10 + (c.toNat - '0'.toNat)) else none)
      (some 0)

/-- Python `int(s)` on the strings reaching `validation_filesize`:
an optional sign followed by digits; anything else raises `ValueError`. -/
def pyInt (s : String) : Option Int :=
  match s.data with
  | '-' :: rest => (digitsVal rest).map (fun n => -(n : Int))
  | l => (digitsVal l).map (fun n => (n : Int))

/-- Source `validation_filesize`: `len(request.data) != int(size)`.  `int` of
a non-numeric string raises `ValueError`, of `None` raises `TypeError`. -/
def validation_filesize (dataLen : Nat) (size : Option String) : Except Err Unit :=
  match size with
  | none => .error .PyTypeError
  | some s =>
    match pyInt s with
    | none => .error .PyValueError
    | some n => if (dataLen : Int) ≠ n then .error .InvalidArgument else .ok ()

/-! ## Request classification (`get_request_information`, app.py lines 100-121) -/

/-- Addressing style of a request. -/
inductive RequestType where
  | VirtualHost
  | Path
  deriving DecidableEq, Repr

/-- Python `path_string.split('?', 1)[0]` guarded by `count('?') > 0`. -/
def stripQuery (path : String) : String :=
  if path.data.contains '?' then ⟨path.data.takeWhile (fun c => c ≠ '?')⟩ else path

/-- Python `s.split(sep, 1)`: the pieces before and after the first
separator occurrence (whole string and `[]` if absent). -/
def splitFirst (sep : Char) : List Char → List Char × List Char
  | [] => ([], [])
  | c :: cs =>
    if c = sep then ([], cs)
    else
      let p := splitFirst sep cs
      (c :: p.1, p.2)

/-- Does `'.' ++ vh` (where `'.'` and every `.` inside `vh` are regex
wildcards) match the part of the host starting right after a candidate
bucket name?  `re.match` only needs a prefix match, so trailing host
characters are allowed. -/
def tailOk (vh rest : List Char) : Bool :=
  decide (vh.length + 1 ≤ rest.length) &&
    (vh.zip (rest.drop 1)).all (fun p => p.1 = '.' || p.1 = p.2)

/-- Greedy `re.match('(.*).<virtual_host>', host)`: the backtracking `(.*)`
yields the longest bucket-name group whose tail matches. -/
def greedyMatch (vh host : List Char) : Option (List Char) :=
  ((List.range (host.length + 1)).reverse.find? (fun i => tailOk vh (host.drop i))).map
    (fun i => host.take i)

/-- Source `get_request_information`: virtual-host style if the Host header
matches the regex, else path style splitting on the first `/`. -/
def get_request_information (s : Settings) (host : Option String)
    (path_string : String) : Except Err (String × String × RequestType) :=
  let ps := stripQuery path_string
  match host with
  | none => .error .PyTypeError
  | some h =>
    match greedyMatch s.virtual_host.data h.data with
    | some g => .ok (⟨g⟩, ps, .VirtualHost)
    | none =>
      if ps.data.contains '/' then
        let p := splitFirst '/' ps.data
        .ok (⟨p.1⟩, ⟨p.2⟩, .Path)
      else .ok (ps, "", .Path)

/-! ## Canonical amz headers (`detect_x_amz`, app.py lines 191-202) -/

/-- Python tuple `<=` on `(name, value)` header pairs, as used by
`sorted(...)` over `request.headers.items()`. -/
def pairLeB (a b : String × String) : Bool :=
  if a.1 = b.1 then strLe a.2 b.2 else strLt a.1 b.1

/-- Propositional form of `pairLeB` for `List.insertionSort`. -/
def pairLe (a b : String × String) : Prop := pairLeB a b = true

instance : DecidableRel pairLe := fun a b =>
  inferInstanceAs (Decidable (pairLeB a b = true))

/-- Source `detect_x_amz`: keep headers whose stored name starts with
`X-Amz-`, sort the `(name, value)` pairs (Python `sorted` is a stable
comparison sort; with the tuple order it is embedded here as a stable
insertion sort), and emit `lower(name):value\n` per pair, where the value
is re-fetched from the header mapping by name. -/
def detect_x_amz (hs : List (String × String)) : String :=
  let sel := hs.filter (fun p => startsWithS "X-Amz-" p.1)
  (List.insertionSort pairLe sel).foldl
    (fun acc p => acc ++ lowerStr p.1 ++ ":" ++ fmtOpt (hget hs p.1) ++ "\n") ""

/-! ## Signature verification (`authorization_request`, app.py lines 160-178) -/

/-- Source `authorization_request`.  `hmacB64 secret msg` stands for
`base64.encodestring(hmac.new(secret, msg, hashlib.sha1).digest()).rstrip()`. -/
def authorization_request (hmacB64 : String → String → String) (s : Settings)
    (hs : List (String × String)) (bucket_name access_key_id raw_string : String) :
    Except Err Unit :=
  if ¬ has_bucket s bucket_name then .error .NoSuchBucket
  else
    match get_secret_access_key s bucket_name access_key_id with
    | .error e => .error e
    | .ok none => .error .InvalidAccessKeyId
    | .ok (some sk) =>
      if hget hs "Authorization" ≠
          some ("AWS " ++ access_key_id ++ ":" ++ hmacB64 sk raw_string) then
        .error .SignatureDoesNotMatch
      else .ok ()

/-- Opaque external primitives and ambient state of one request evaluation:
the loaded settings, the HMAC-SHA1/base64 signer, the `dateutil` parser,
the MD5 hex digest, `datetime.fromtimestamp(..).isoformat()`, and the
current time (epoch seconds). -/
structure Ctx where
  settings : Settings
  hmacB64 : String → String → String
  parseDate : String → Option Int
  md5hex : List Nat → String
  isoOf : Int → String
  now : Int

/-! ## Filesystem model

The bucket root directory is a tree.  Object operations address it with the
key's normalized path segments (`segsOf`): `convert_local_path` produces
`root ++ "/" ++ joinSlash segs` for keys that stay inside the root (claim C1
studies the path arithmetic itself, including `..` escapes, on strings). -/

/-- A filesystem node: a regular file (content bytes and mtime, epoch
seconds) or a directory with named children. -/
inductive FSNode where
  | file (content : List Nat) (mtime : Int)
  | dir (children : List (String × FSNode))
  deriving Repr

/-- Whether a node is a directory (`os.path.isdir`). -/
def isDirN : FSNode → Bool
  | .dir _ => true
  | .file _ _ => false

/-- Update-or-append in an association list (writing a directory entry). -/
def assocSet {α : Type} : List (String × α) → String → α → List (String × α)
  | [], k, v => [(k, v)]
  | (k0, v0) :: rest, k, v =>
    if k0 = k then (k, v) :: rest else (k0, v0) :: assocSet rest k v

/-- Remove an entry from an association list (deleting a directory entry). -/
def assocErase {α : Type} : List (String × α) → String → List (String × α)
  | [], _ => []
  | (k0, v0) :: rest, k =>
    if k0 = k then rest else (k0, v0) :: assocErase rest k

/-- Follow a segment path down the tree (`os.path.exists` is `isSome` of
this, `os.path.isfile`/`isdir` inspect the node). -/
def resolve : FSNode → List String → Option FSNode
  | n, [] => some n
  | .file _ _, _ :: _ => none
  | .dir ch, s :: rest =>
    match alookup ch s with
    | none => none
    | some sub => resolve sub rest

/-- Key string to path segments, mirroring the `normpath` component stack
inside `convert_local_path` for keys that stay under the bucket root (empty
and `.` components vanish, `..` pops; escaping `..`s are claim C1's topic
and are clamped at the root here). -/
def segsOf (s : String) : List String :=
  (splitSlash s.data).foldl
    (fun acc comp =>
      if comp = [] ∨ comp = ['.'] then acc
      else if comp = ['.', '.'] then acc.dropLast
      else acc ++ [(⟨comp⟩ : String)]) []

/-- Source `os.makedirs` wrapped in `try/except OSError: pass` (used by
`fileupload` and `createdirectory`): create missing directories along the
path; any error (an existing file in the way) is swallowed, leaving the
tree unchanged at that point. -/
def treeMakedirs : FSNode → List String → FSNode
  | n, [] => n
  | .file c m, _ :: _ => .file c m
  | .dir ch, s :: rest =>
    match alookup ch s with
    | some sub => .dir (assocSet ch s (treeMakedirs sub rest))
    | none => .dir (assocSet ch s (treeMakedirs (.dir []) rest))

/-- Source `open(local_path, 'wb'); f.write(request.data)`: create or
overwrite the file at the path.  `none` models the raised `IOError`: the
path names a directory, or its parent chain is missing or blocked by a
file. -/
def treeWrite : FSNode → List String → List Nat → Int → Option FSNode
  | _, [], _, _ => none
  | .file _ _, _ :: _, _, _ => none
  | .dir ch, [s], data, mt =>
    match alookup ch s with
    | some (.dir _) => none
    | _ => some (.dir (assocSet ch s (.file data mt)))
  | .dir ch, s :: r :: rs, data, mt =>
    match alookup ch s with
    | some sub =>
      match treeWrite sub (r :: rs) data mt with
      | some sub2 => some (.dir (assocSet ch s sub2))
      | none => none
    | none => none

/-- Source `os.remove` (`wantDir = false`) and `shutil.rmtree`
(`wantDir = true`): remove the entry at the path; `none` models the raised
`OSError` (missing path, or a node of the wrong kind). -/
def treeRemovePath (wantDir : Bool) : FSNode → List String → Option FSNode
  | _, [] => none
  | .file _ _, _ :: _ => none
  | .dir ch, [s] =>
    match alookup ch s with
    | none => none
    | some node =>
      if isDirN node = wantDir then some (.dir (assocErase ch s)) else none
  | .dir ch, s :: r :: rs =>
    match alookup ch s with
    | some sub =>
      match treeRemovePath wantDir sub (r :: rs) with
      | some sub2 => some (.dir (assocSet ch s sub2))
      | none => none
    | none => none

/-- Names of the regular-file children of a directory listing. -/
def fileNames (ch : List (String × FSNode)) : List String :=
  ch.filterMap (fun p => if isDirN p.2 then none else some p.1)

mutual

/-- Source `os.walk(prefix_root)` flattened to the relative paths of every
regular file under a node, in walk order: the current directory's files
first, then each subdirectory in listing order. -/
def walkFiles : FSNode → List (List String)
  | .file _ _ => []
  | .dir ch => (fileNames ch).map (fun n => [n]) ++ walkSub ch

/-- Recursion of `walkFiles` over the subdirectories of a listing. -/
def walkSub : List (String × FSNode) → List (List String)
  | [] => []
  | (n, node) :: rest =>
    (if isDirN node then (walkFiles node).map (fun p => n :: p) else []) ++ walkSub rest

end

/-! ## Responses -/

/-- One `Contents` block of the listing XML (app.py lines 316-323): the text
of its `Key`, `LastModified`, `ETag`, `Size` and `StorageClass` elements. -/
structure Entry where
  key : String
  lastModified : String
  etag : String
  size : String
  storageClass : String
  deriving DecidableEq, Repr

/-- Responses the modelled handlers produce. -/
inductive Resp where
  | okEmpty
  | noContent
  | bytes (data : List Nat)
  | text (body : String) (headers : List (String × String))
  | listing (name pfxStr delimStr keyCount maxKeys : String)
      (entries : List Entry) (commonPrefixs : List String)
  deriving DecidableEq, Repr

/-! ## Object operations (app.py lines 336-346, 414-444) -/

/-- Source `return_object`: `NoSuchKey` when the path does not exist,
`InvalidArgument` when it is not a regular file, else the file bytes. -/
def return_object (fs : FSNode) (segs : List String) : Except Err Resp :=
  match resolve fs segs with
  | none => .error .NoSuchKey
  | some (.dir _) => .error .InvalidArgument
  | some (.file content _) => .ok (.bytes content)

/-- Source `fileupload`: `os.makedirs(os.path.dirname(local_path))` with
errors swallowed, write the body, re-open the file to compute the MD5
checksum, and answer `OK` with a double-quoted `ETag` header. -/
def fileupload (c : Ctx) (data : List Nat) (remote_path : String) (fs : FSNode) :
    FSNode × Except Err Resp :=
  let segs := segsOf remote_path
  let fs1 := treeMakedirs fs segs.dropLast
  match treeWrite fs1 segs data c.now with
  | none => (fs1, .error .PyOSError)
  | some fs2 =>
    match resolve fs2 segs with
    | some (.file content _) =>
      (fs2, .ok (.text "OK" [("ETag", "\"" ++ c.md5hex content ++ "\"")]))
    | _ => (fs2, .error .PyOSError)

/-- Source `createdirectory`: `os.makedirs` with errors swallowed, then `OK`. -/
def createdirectory (remote_path : String) (fs : FSNode) : FSNode × Except Err Resp :=
  (treeMakedirs fs (segsOf remote_path), .ok (.text "OK" []))

/-! ## Listing engine (`listing_object`, app.py lines 260-333) -/

/-- Python `request.args.get(k, default)`. -/
def argGet (args : List (String × String)) (k d : String) : String :=
  (alookup args k).getD d

/-- The source's XML loop over the enumerated objects: build each entry in
order, aborting at the first failure (an `open` that raises). -/
def mapMEx {α β : Type} (f : α → Except Err β) : List α → Except Err (List β)
  | [] => .ok []
  | a :: rest =>
    match f a with
    | .error e => .error e
    | .ok b =>
      match mapMEx f rest with
      | .error e => .error e
      | .ok bs => .ok (b :: bs)

/-- One `Contents` block for an object key (app.py lines 305-323): re-open
the file for its MD5 checksum, take mtime and size from the filesystem, and
render `ETag` as `'&quot;{}&quot;'.format(checksum)` — the literal
six-character entity text, not double-quote characters. -/
def buildEntry (c : Ctx) (fs : FSNode) (key : String) : Except Err Entry :=
  match resolve fs (segsOf key) with
  | some (.file content mt) =>
    .ok { key := key
          lastModified := c.isoOf mt
          etag := "&quot;" ++ c.md5hex content ++ "&quot;"
          size := toString content.length
          storageClass := "Standard" }
  | _ => .error .PyOSError

/-- Source `listing_object`: read the query parameters, enumerate objects
and common prefixes (recursive walk for an empty delimiter, one directory
listing for `/`, `NotImplemented` otherwise), then serialize.  `os.walk` on
a missing or non-directory path yields nothing; `os.listdir` on one raises
`OSError`. -/
def listing_object (c : Ctx) (req : Req) (bucket_name : String) (fs : FSNode) :
    Except Err Resp :=
  let delimiter_string := argGet req.args "delimiter" ""
  let max_keys_string := argGet req.args "max-keys" "1000"
  let pfx_string := argGet req.args "prefix" ""
  let pfxSegs := segsOf pfx_string
  let enumerated : Except Err (List String × List String) :=
    if delimiter_string = "" then
      .ok (((match resolve fs pfxSegs with
             | some sub => walkFiles sub
             | none => []).map (fun p => joinSlash (pfxSegs ++ p))), [])
    else if delimiter_string = "/" then
      match resolve fs pfxSegs with
      | some (.dir ch) =>
        .ok (ch.filterMap
              (fun p => if isDirN p.2 then none else some (joinSlash (pfxSegs ++ [p.1]))),
             ch.filterMap
              (fun p => if isDirN p.2 then some (joinSlash (pfxSegs ++ [p.1]) ++ "/") else none))
      | _ => .error .PyOSError
    else .error .NotImplemented
  match enumerated with
  | .error e => .error e
  | .ok (objects, commonPrefixs) =>
    match mapMEx (buildEntry c fs) objects with
    | .error e => .error e
    | .ok entries =>
      .ok (.listing bucket_name pfx_string delimiter_string
            (toString objects.length) max_keys_string entries commonPrefixs)

/-! ## Handlers (app.py lines 380-411, 447-485, 488-516) -/

/-- Source `get_object` (`GET /<path>`): header validations, classification,
signature verification; an empty key lists the bucket under the `list`
permission, otherwise the object is returned under `download`. -/
def get_object (c : Ctx) (req : Req) (path_string : String) (fs : FSNode) :
    Except Err Resp := do
  let _ ← validation_request_header req.headers ["Host", "Date", "Authorization"]
  let _ ← validation_request_authorization req.headers
  let _ ← validation_date c.parseDate c.now req.headers
  let info ← get_request_information c.settings (hget req.headers "Host") path_string
  let access_key_id ← get_request_access_key_id req.headers
  let _ ← authorization_request c.hmacB64 c.settings req.headers info.1 access_key_id
    ("GET\n\n\n" ++ fmtOpt (hget req.headers "Date") ++ "\n" ++ detect_x_amz req.headers
      ++ "/" ++ info.1 ++ "/" ++ info.2.1)
  if info.2.1 = "" then do
    let _ ← permission_check c.settings info.1 access_key_id "list"
    listing_object c req info.1 fs
  else do
    let _ ← permission_check c.settings info.1 access_key_id "download"
    return_object fs (segsOf info.2.1)

/-- The PUT pipeline up to and including the permission check: everything in
source `put_object` before any filesystem effect.  Returns the key and
whether it is a directory key (`remote_path[-1] == '/'`; indexing an empty
key raises `IndexError`). -/
def put_object_checks (c : Ctx) (req : Req) (path_string : String) :
    Except Err (String × Bool) := do
  let _ ← validation_request_header req.headers
    ["Host", "Date", "Content-Length", "Content-Type", "Authorization"]
  let _ ← validation_request_authorization req.headers
  let _ ← validation_date c.parseDate c.now req.headers
  let _ ← validation_filesize req.data.length (hget req.headers "Content-Length")
  let info ← get_request_information c.settings (hget req.headers "Host") path_string
  let access_key_id ← get_request_access_key_id req.headers
  let _ ← authorization_request c.hmacB64 c.settings req.headers info.1 access_key_id
    ("PUT\n" ++ (hget req.headers "Content-Md5").getD "" ++ "\n"
      ++ (hget req.headers "Content-Type").getD "" ++ "\n"
      ++ fmtOpt (hget req.headers "Date") ++ "\n" ++ detect_x_amz req.headers
      ++ "/" ++ info.1 ++ "/" ++ info.2.1)
  match info.2.1.data.getLast? with
  | none => .error .PyIndexError
  | some last =>
    if last = '/' then do
      let _ ← permission_check c.settings info.1 access_key_id "mkdir"
      pure (info.2.1, true)
    else do
      let _ ← permission_check c.settings info.1 access_key_id "upload"
      pure (info.2.1, false)

/-- Source `put_object` (`PUT /<path>`): all checks, then either
`createdirectory` or `fileupload`.  The filesystem is threaded explicitly;
every check failure leaves it untouched. -/
def put_object (c : Ctx) (req : Req) (path_string : String) (fs : FSNode) :
    FSNode × Except Err Resp :=
  match put_object_checks c req path_string with
  | .error e => (fs, .error e)
  | .ok (remote_path, isDirKey) =>
    if isDirKey then createdirectory remote_path fs
    else fileupload c req.data remote_path fs

/-- The DELETE pipeline up to and including the permission check (source
`delete_object` before any filesystem access). -/
def delete_object_checks (c : Ctx) (req : Req) (path_string : String) :
    Except Err String := do
  let _ ← validation_request_header req.headers ["Host", "Date", "Authorization"]
  let _ ← validation_request_authorization req.headers
  let _ ← validation_date c.parseDate c.now req.headers
  let info ← get_request_information c.settings (hget req.headers "Host") path_string
  let access_key_id ← get_request_access_key_id req.headers
  let _ ← authorization_request c.hmacB64 c.settings req.headers info.1 access_key_id
    ("DELETE\n\n\n" ++ fmtOpt (hget req.headers "Date") ++ "\n/" ++ info.1 ++ "/" ++ info.2.1)
  let _ ← permission_check c.settings info.1 access_key_id "delete"
  pure info.2.1

/-- Source `delete_object` (`DELETE /<path>`): checks, existence test
(`NoSuchKey`), then `rmtree` for directory keys (`remote_path[-1] == '/'`,
`IndexError` on an empty key) or `os.remove` for file keys. -/
def delete_object (c : Ctx) (req : Req) (path_string : String) (fs : FSNode) :
    FSNode × Except Err Resp :=
  match delete_object_checks c req path_string with
  | .error e => (fs, .error e)
  | .ok remote_path =>
    let segs := segsOf remote_path
    match resolve fs segs with
    | none => (fs, .error .NoSuchKey)
    | some _ =>
      match remote_path.data.getLast? with
      | none => (fs, .error .PyIndexError)
      | some last =>
        if last = '/' then
          match treeRemovePath true fs segs with
          | some fs2 => (fs2, .ok .noContent)
          | none => (fs, .error .PyOSError)
        else
          match treeRemovePath false fs segs with
          | some fs2 => (fs2, .ok .noContent)
          | none => (fs, .error .PyOSError)

/-! # Claims -/

/-! ## C2 — date validation -/

/-- Claim C2, counterexample: a `Date` 1000 seconds (over 16 minutes) in the
future passes validation, although the claim demands `InvalidArgument`
whenever the absolute difference exceeds 3 minutes in either direction.
(`validation_date` only tests `now - date > 3 min`.) -/
theorem C2_counterexample :
    validation_date (fun _ => some 1000) 0 [("Date", "d")] = .ok () ∧
    ((1000 : Int) - 0 > 180 ∧ ¬ ((0 : Int) - 1000 > 180)) := by
  exact ⟨rfl, by norm_num⟩

/-- Claim C2 as amended: for a request whose `Date` header parses, date
validation raises `InvalidArgument` exactly when the parsed date is older
than the current time by more than 3 minutes; a date in the future (by any
amount) passes.  Signature correctness plays no part in `validation_date`. -/
theorem C2_theorem (parseDate : String → Option Int) (now : Int)
    (hs : List (String × String)) (d : String) (t : Int)
    (hd : hget hs "Date" = some d) (hp : parseDate d = some t) :
    (validation_date parseDate now hs = .error .InvalidArgument ↔ now - t > 180) ∧
    (validation_date parseDate now hs = .ok () ↔ now - t ≤ 180) := by
  simp only [validation_date, hd, hp]
  by_cases h : now - t > 180 <;> simp [h] <;> omega

/-- Claim C2 witness: a date 1000 seconds older than now is rejected with
`InvalidArgument`. -/
theorem C2_witness :
    validation_date (fun _ => some 0) 1000 [("Date", "d")] = .error .InvalidArgument :=
  ((C2_theorem (fun _ => some 0) 1000 [("Date", "d")] "d" 0 rfl rfl).1).mpr (by norm_num)

/-! ## C8 — listing entry metadata -/

/-- Claim C8, counterexample: the `ETag` element text produced for a listing
entry is the checksum wrapped in the literal six-character text `&quot;`
(`'&quot;{}&quot;'.format(checksum)`, app.py line 314), not in double-quote
characters, so it differs from the upload header form `"checksum"`. -/
theorem C8_counterexample :
    buildEntry ⟨⟨"vh", []⟩, fun _ _ => "S", fun _ => some 0, fun _ => "MD5", fun _ => "T", 0⟩
        (.dir [("k", .file [5] 3)]) "k" =
      .ok ⟨"k", "T", "&quot;MD5&quot;", "1", "Standard"⟩ ∧
    ("&quot;MD5&quot;" : String) ≠ "\"MD5\"" := by
  exact ⟨rfl, by decide⟩

/-- Claim C8 as amended: every listing entry for an object resolving to a
file carries `Size` equal to the byte length of the content, `LastModified`
equal to `isoformat` of the filesystem mtime, and an `ETag` text equal to
the whole-file checksum wrapped in the literal text `&quot;` — which for no
digest equals the double-quoted form used by the upload `ETag` header. -/
theorem C8_theorem (c : Ctx) (fs : FSNode) (key : String) (content : List Nat) (mt : Int)
    (h : resolve fs (segsOf key) = some (.file content mt)) :
    buildEntry c fs key =
      .ok ⟨key, c.isoOf mt, "&quot;" ++ c.md5hex content ++ "&quot;",
           toString content.length, "Standard"⟩ ∧
    ∀ digest : String,
      ("&quot;" ++ digest ++ "&quot;" : String) ≠ "\"" ++ digest ++ "\"" := by
  constructor
  · simp [buildEntry, h]
  · intro digest hEq
    have h2 := congrArg (fun s => s.data.head?) hEq
    simp [String.data_append] at h2

/-- Claim C8 witness: the entry for a two-byte file at key `k`. -/
theorem C8_witness :
    buildEntry ⟨⟨"vh", []⟩, fun _ _ => "S", fun _ => some 0, fun _ => "D", fun _ => "M", 0⟩
        (.dir [("k", .file [1, 2] 9)]) "k" =
      .ok ⟨"k", "M", "&quot;D&quot;", "2", "Standard"⟩ ∧
    ∀ digest : String,
      ("&quot;" ++ digest ++ "&quot;" : String) ≠ "\"" ++ digest ++ "\"" :=
  C8_theorem ⟨⟨"vh", []⟩, fun _ _ => "S", fun _ => some 0, fun _ => "D", fun _ => "M", 0⟩
    (.dir [("k", .file [1, 2] 9)]) "k" [1, 2] 9 rfl

/-! ## C10 — duplicate access-key ids -/

/-- Claim C10: in a bucket holding two or more credentials with the same
access-key id, `get_credential` (which demands exactly one filter match)
returns `None`, so signature verification fails with `InvalidAccessKeyId`
for every request signed with that id; with exactly one match the lookup
returns that credential. -/
theorem C10_theorem :
    (∀ (s : Settings) (bn akid : String) (b : Bucket),
      alookup s.buckets bn = some b →
      2 ≤ (b.credentials.filter (fun c => c.access_key_id == akid)).length →
      get_credential s bn akid = .ok none ∧
      ∀ (hmac : String → String → String) (hs : List (String × String)) (raw : String),
        authorization_request hmac s hs bn akid raw = .error .InvalidAccessKeyId) ∧
    (∀ (s : Settings) (bn akid : String) (b : Bucket) (cr : Credential),
      alookup s.buckets bn = some b →
      b.credentials.filter (fun c => c.access_key_id == akid) = [cr] →
      get_credential s bn akid = .ok (some cr)) := by
  constructor
  · intro s bn akid b hb hlen
    have hcred : get_credential s bn akid = .ok none := by
      simp only [get_credential, hb]
      rcases hfil : b.credentials.filter (fun c => c.access_key_id == akid) with
        _ | ⟨x, _ | ⟨y, tl⟩⟩
      · rw [hfil] at hlen; simp at hlen
      · rw [hfil] at hlen; simp at hlen
      · rw [hfil]
    refine ⟨hcred, fun hmac hs raw => ?_⟩
    have hbucket : has_bucket s bn = true := by simp [has_bucket, hb]
    simp [authorization_request, hbucket, get_secret_access_key, hcred]
  · intro s bn akid b cr hb hfil
    simp only [get_credential, hb, hfil]

/-- Claim C10 witness: a bucket with two credentials sharing id `AK`
yields no credential and `InvalidAccessKeyId`; a bucket with a single
match yields that credential. -/
theorem C10_witness :
    (get_credential ⟨"vh", [("b", ⟨"/r", [⟨"AK", "S1", []⟩, ⟨"AK", "S2", []⟩]⟩)]⟩ "b" "AK"
        = .ok none ∧
      authorization_request (fun _ _ => "S") ⟨"vh", [("b", ⟨"/r", [⟨"AK", "S1", []⟩, ⟨"AK", "S2", []⟩]⟩)]⟩
        [] "b" "AK" "raw" = .error .InvalidAccessKeyId) ∧
    get_credential ⟨"vh", [("b", ⟨"/r", [⟨"AK", "S1", []⟩, ⟨"AK2", "S2", []⟩]⟩)]⟩ "b" "AK"
      = .ok (some ⟨"AK", "S1", []⟩) := by
  constructor
  · have h := C10_theorem.1 ⟨"vh", [("b", ⟨"/r", [⟨"AK", "S1", []⟩, ⟨"AK", "S2", []⟩]⟩)]⟩
      "b" "AK" ⟨"/r", [⟨"AK", "S1", []⟩, ⟨"AK", "S2", []⟩]⟩ rfl (by decide)
    exact ⟨h.1, h.2 (fun _ _ => "S") [] "raw"⟩
  · exact C10_theorem.2 ⟨"vh", [("b", ⟨"/r", [⟨"AK", "S1", []⟩, ⟨"AK2", "S2", []⟩]⟩)]⟩
      "b" "AK" ⟨"/r", [⟨"AK", "S1", []⟩, ⟨"AK2", "S2", []⟩]⟩ ⟨"AK", "S1", []⟩ rfl (by decide)

/-! ## C9 — empty object key in PUT/DELETE -/

/-- Claim C9: when the classified object key is the empty string (a
path-style request naming only the bucket) and every header, signature and
— for DELETE — permission and existence check passes, both handlers index
`remote_path[-1]` on an empty string and die with an unclassified
`IndexError` (no protocol error); the filesystem is untouched.  (The bucket
root itself always exists, so DELETE's existence check cannot fail.) -/
theorem C9_theorem (c : Ctx) (req : Req) (path : String) (fs : FSNode) (bn : String)
    (rt : RequestType) (akid : String)
    (h1 : validation_request_header req.headers
      ["Host", "Date", "Content-Length", "Content-Type", "Authorization"] = .ok ())
    (h2 : validation_request_header req.headers ["Host", "Date", "Authorization"] = .ok ())
    (h3 : validation_request_authorization req.headers = .ok ())
    (h4 : validation_date c.parseDate c.now req.headers = .ok ())
    (h5 : validation_filesize req.data.length (hget req.headers "Content-Length") = .ok ())
    (h6 : get_request_information c.settings (hget req.headers "Host") path = .ok (bn, "", rt))
    (h7 : get_request_access_key_id req.headers = .ok akid)
    (h8 : ∀ raw, authorization_request c.hmacB64 c.settings req.headers bn akid raw = .ok ())
    (h9 : permission_check c.settings bn akid "delete" = .ok ()) :
    put_object c req path fs = (fs, .error .PyIndexError) ∧
    delete_object c req path fs = (fs, .error .PyIndexError) := by
  constructor
  · simp only [put_object, put_object_checks, h1, h3, h4, h5, h6, h7, h8, bind, Except.bind]
    simp
  · simp only [delete_object, delete_object_checks, h2, h3, h4, h6, h7, h8, h9, bind, Except.bind]
    simp only [pure, Except.pure, show segsOf "" = [] from rfl]
    simp [resolve]

/-- Claim C9 witness: a fully authorized path-style request `PUT /b` (and
`DELETE /b`) on bucket `b` ends in `IndexError`. -/
theorem C9_witness :
    put_object
      ⟨⟨"example.com", [("b", ⟨"/data/b",
          [⟨"AK", "SK", [("list", true), ("download", true), ("upload", true),
            ("mkdir", true), ("delete", true)]⟩]⟩)]⟩,
        fun _ _ => "SIG", fun _ => some 0, fun _ => "MD5", fun _ => "T", 0⟩
      ⟨[("Host", "h"), ("Date", "d"), ("Authorization", "AWS AK:SIG"),
        ("Content-Length", "0"), ("Content-Type", "x")], [], []⟩ "b" (.dir []) =
      (.dir [], .error .PyIndexError) ∧
    delete_object
      ⟨⟨"example.com", [("b", ⟨"/data/b",
          [⟨"AK", "SK", [("list", true), ("download", true), ("upload", true),
            ("mkdir", true), ("delete", true)]⟩]⟩)]⟩,
        fun _ _ => "SIG", fun _ => some 0, fun _ => "MD5", fun _ => "T", 0⟩
      ⟨[("Host", "h"), ("Date", "d"), ("Authorization", "AWS AK:SIG"),
        ("Content-Length", "0"), ("Content-Type", "x")], [], []⟩ "b" (.dir []) =
      (.dir [], .error .PyIndexError) :=
  C9_theorem
    ⟨⟨"example.com", [("b", ⟨"/data/b",
        [⟨"AK", "SK", [("list", true), ("download", true), ("upload", true),
          ("mkdir", true), ("delete", true)]⟩]⟩)]⟩,
      fun _ _ => "SIG", fun _ => some 0, fun _ => "MD5", fun _ => "T", 0⟩
    ⟨[("Host", "h"), ("Date", "d"), ("Authorization", "AWS AK:SIG"),
      ("Content-Length", "0"), ("Content-Type", "x")], [], []⟩ "b" (.dir []) "b" .Path "AK"
    rfl rfl rfl rfl rfl rfl rfl (fun _ => rfl) rfl

/-! ## C7 — no filesystem effects before an error -/

/-- Helper for C7: when `fileupload` fails, the error is the unclassified
`IOError`/`OSError` of the write itself, never a protocol error. -/
theorem fileupload_error_shape (c : Ctx) (data : List Nat) (rp : String) (fs : FSNode) (e : Err)
    (h : (fileupload c data rp fs).2 = .error e) : e = .PyOSError := by
  simp only [fileupload] at h
  cases hw : treeWrite (treeMakedirs fs (segsOf rp).dropLast) (segsOf rp) data c.now with
  | none => rw [hw] at h; simp at h; exact h.symm
  | some fs2 =>
    rw [hw] at h
    dsimp only at h
    cases hres : resolve fs2 (segsOf rp) with
    | none => rw [hres] at h; simp at h; exact h.symm
    | some node =>
      rw [hres] at h
      cases node with
      | file ct mt => simp at h
      | dir ch => simp at h; exact h.symm

/-- Claim C7: whenever a PUT or DELETE request ends in a protocol error
(any `AppException`: validation, signature, authorization, permission,
missing key), the filesystem is exactly what it was before the request —
writes and removals happen only after every check has passed. -/
theorem C7_theorem (c : Ctx) (req : Req) (path : String) (fs : FSNode) (e : Err)
    (he : e.isProtocol = true) :
    ((put_object c req path fs).2 = .error e → (put_object c req path fs).1 = fs) ∧
    ((delete_object c req path fs).2 = .error e → (delete_object c req path fs).1 = fs) := by
  constructor
  · intro h
    simp only [put_object] at h ⊢
    cases hc : put_object_checks c req path with
    | error e2 => simp [hc]
    | ok v =>
      rw [hc] at h
      rcases v with ⟨rp, isDir⟩
      dsimp only at h ⊢
      by_cases hd : isDir = true
      · simp [hd, createdirectory] at h
      · simp only [hd, if_neg, Bool.false_eq_true, if_false] at h ⊢
        have := fileupload_error_shape c req.data rp fs e h
        rw [this] at he
        simp [Err.isProtocol] at he
  · intro h
    simp only [delete_object] at h ⊢
    cases hc : delete_object_checks c req path with
    | error e2 => simp [hc]
    | ok rp =>
      rw [hc] at h
      dsimp only at h ⊢
      cases hr : resolve fs (segsOf rp) with
      | none => simp [hr]
      | some node =>
        rw [hr] at h
        simp only [hr]
        dsimp only at h ⊢
        cases hl : rp.data.getLast? with
        | none => simp [hl]
        | some last =>
          rw [hl] at h
          simp only [hl]
          dsimp only at h ⊢
          by_cases hsl : last = '/'
          · simp only [hsl, if_pos] at h ⊢
            cases ht : treeRemovePath true fs (segsOf rp) with
            | some fs2 => rw [ht] at h; simp at h
            | none => simp [ht]
          · simp only [hsl, if_neg, if_false] at h ⊢
            cases ht : treeRemovePath false fs (segsOf rp) with
            | some fs2 => rw [ht] at h; simp at h
            | none => simp [ht]

/-- Claim C7 witness: a PUT and a DELETE addressing the unconfigured bucket
`z` fail with the protocol error `NoSuchBucket` and leave the filesystem
unchanged. -/
theorem C7_witness :
    Err.isProtocol .NoSuchBucket = true ∧
    (put_object
      ⟨⟨"example.com", [("b", ⟨"/data/b", [⟨"AK", "SK", [("upload", true)]⟩]⟩)]⟩,
        fun _ _ => "SIG", fun _ => some 0, fun _ => "MD5", fun _ => "T", 0⟩
      ⟨[("Host", "h"), ("Date", "d"), ("Authorization", "AWS AK:SIG"),
        ("Content-Length", "1"), ("Content-Type", "x")], [], [9]⟩ "z/x"
      (.dir [("x", .file [1] 0)])).1 = .dir [("x", .file [1] 0)] ∧
    (delete_object
      ⟨⟨"example.com", [("b", ⟨"/data/b", [⟨"AK", "SK", [("upload", true)]⟩]⟩)]⟩,
        fun _ _ => "SIG", fun _ => some 0, fun _ => "MD5", fun _ => "T", 0⟩
      ⟨[("Host", "h"), ("Date", "d"), ("Authorization", "AWS AK:SIG"),
        ("Content-Length", "1"), ("Content-Type", "x")], [], [9]⟩ "z/x"
      (.dir [("x", .file [1] 0)])).1 = .dir [("x", .file [1] 0)] := by
  have h := C7_theorem
    ⟨⟨"example.com", [("b", ⟨"/data/b", [⟨"AK", "SK", [("upload", true)]⟩]⟩)]⟩,
      fun _ _ => "SIG", fun _ => some 0, fun _ => "MD5", fun _ => "T", 0⟩
    ⟨[("Host", "h"), ("Date", "d"), ("Authorization", "AWS AK:SIG"),
      ("Content-Length", "1"), ("Content-Type", "x")], [], [9]⟩ "z/x"
    (.dir [("x", .file [1] 0)]) .NoSuchBucket rfl
  exact ⟨rfl, h.1 rfl, h.2 rfl⟩

/-! ## C6 — permission gate ordering and behavior -/

/-- Claim C6, counterexample: a credential whose permission map has no
`download` entry at all "lacks a truthy entry for the required action", yet
an authorized GET fails with an unclassified Python `KeyError`
(`credential['permission']['download']`), not `AccessDenied`. -/
theorem C6_counterexample :
    get_object
      ⟨⟨"example.com", [("b", ⟨"/data/b", [⟨"AK", "SK", [("list", true)]⟩]⟩)]⟩,
        fun _ _ => "SIG", fun _ => some 0, fun _ => "MD5", fun _ => "T", 0⟩
      ⟨[("Host", "h"), ("Date", "d"), ("Authorization", "AWS AK:SIG")], [], []⟩ "b/x"
      (.dir [("x", .file [9] 0)]) = .error .PyKeyError ∧
    Err.PyKeyError ≠ Err.AccessDenied := by
  exact ⟨rfl, by decide⟩

/-- Claim C6 as amended: for every operation the per-credential permission
check runs only after signature verification has succeeded, and a
credential whose permission map maps the required action to a falsy value
fails with `AccessDenied` for every filesystem state.  Conjuncts:
(1)–(3) a signature-verification failure propagates as exactly that
failure from `get_object`, `put_object` and `delete_object` — the
permission state is never consulted and the filesystem is untouched;
(4) `download = false` fails a GET of a nonempty key with `AccessDenied`
whether or not the key exists; (5) `list = false` fails a bucket-listing
GET (empty key) with `AccessDenied`; (6) `mkdir = false` fails a PUT of a
directory key (trailing `/`) with `AccessDenied`, filesystem untouched;
(7) `upload = false` fails a PUT of a file key likewise; (8)
`delete = false` fails a DELETE likewise, before the existence check.
(A credential whose map lacks the entry entirely raises `KeyError`
instead — see the counterexample.) -/
theorem C6_theorem :
    (∀ (c : Ctx) (req : Req) (path : String) (fs : FSNode) (bn rp : String)
        (rt : RequestType) (akid : String) (e : Err),
      validation_request_header req.headers ["Host", "Date", "Authorization"] = .ok () →
      validation_request_authorization req.headers = .ok () →
      validation_date c.parseDate c.now req.headers = .ok () →
      get_request_information c.settings (hget req.headers "Host") path = .ok (bn, rp, rt) →
      get_request_access_key_id req.headers = .ok akid →
      (∀ raw, authorization_request c.hmacB64 c.settings req.headers bn akid raw = .error e) →
      get_object c req path fs = .error e) ∧
    (∀ (c : Ctx) (req : Req) (path : String) (fs : FSNode) (bn rp : String)
        (rt : RequestType) (akid : String) (e : Err),
      validation_request_header req.headers
        ["Host", "Date", "Content-Length", "Content-Type", "Authorization"] = .ok () →
      validation_request_authorization req.headers = .ok () →
      validation_date c.parseDate c.now req.headers = .ok () →
      validation_filesize req.data.length (hget req.headers "Content-Length") = .ok () →
      get_request_information c.settings (hget req.headers "Host") path = .ok (bn, rp, rt) →
      get_request_access_key_id req.headers = .ok akid →
      (∀ raw, authorization_request c.hmacB64 c.settings req.headers bn akid raw = .error e) →
      put_object c req path fs = (fs, .error e)) ∧
    (∀ (c : Ctx) (req : Req) (path : String) (fs : FSNode) (bn rp : String)
        (rt : RequestType) (akid : String) (e : Err),
      validation_request_header req.headers ["Host", "Date", "Authorization"] = .ok () →
      validation_request_authorization req.headers = .ok () →
      validation_date c.parseDate c.now req.headers = .ok () →
      get_request_information c.settings (hget req.headers "Host") path = .ok (bn, rp, rt) →
      get_request_access_key_id req.headers = .ok akid →
      (∀ raw, authorization_request c.hmacB64 c.settings req.headers bn akid raw = .error e) →
      delete_object c req path fs = (fs, .error e)) ∧
    (∀ (c : Ctx) (req : Req) (path : String) (bn rp : String) (rt : RequestType)
        (akid : String) (cred : Credential),
      validation_request_header req.headers ["Host", "Date", "Authorization"] = .ok () →
      validation_request_authorization req.headers = .ok () →
      validation_date c.parseDate c.now req.headers = .ok () →
      get_request_information c.settings (hget req.headers "Host") path = .ok (bn, rp, rt) →
      get_request_access_key_id req.headers = .ok akid →
      (∀ raw, authorization_request c.hmacB64 c.settings req.headers bn akid raw = .ok ()) →
      rp ≠ "" →
      get_credential c.settings bn akid = .ok (some cred) →
      alookup cred.permission "download" = some false →
      ∀ fs : FSNode, get_object c req path fs = .error .AccessDenied) ∧
    (∀ (c : Ctx) (req : Req) (path : String) (bn rp : String) (rt : RequestType)
        (akid : String) (cred : Credential),
      validation_request_header req.headers ["Host", "Date", "Authorization"] = .ok () →
      validation_request_authorization req.headers = .ok () →
      validation_date c.parseDate c.now req.headers = .ok () →
      get_request_information c.settings (hget req.headers "Host") path = .ok (bn, rp, rt) →
      get_request_access_key_id req.headers = .ok akid →
      (∀ raw, authorization_request c.hmacB64 c.settings req.headers bn akid raw = .ok ()) →
      rp = "" →
      get_credential c.settings bn akid = .ok (some cred) →
      alookup cred.permission "list" = some false →
      ∀ fs : FSNode, get_object c req path fs = .error .AccessDenied) ∧
    (∀ (c : Ctx) (req : Req) (path : String) (bn rp : String) (rt : RequestType)
        (akid : String) (cred : Credential),
      validation_request_header req.headers
        ["Host", "Date", "Content-Length", "Content-Type", "Authorization"] = .ok () →
      validation_request_authorization req.headers = .ok () →
      validation_date c.parseDate c.now req.headers = .ok () →
      validation_filesize req.data.length (hget req.headers "Content-Length") = .ok () →
      get_request_information c.settings (hget req.headers "Host") path = .ok (bn, rp, rt) →
      get_request_access_key_id req.headers = .ok akid →
      (∀ raw, authorization_request c.hmacB64 c.settings req.headers bn akid raw = .ok ()) →
      rp.data.getLast? = some '/' →
      get_credential c.settings bn akid = .ok (some cred) →
      alookup cred.permission "mkdir" = some false →
      ∀ fs : FSNode, put_object c req path fs = (fs, .error .AccessDenied)) ∧
    (∀ (c : Ctx) (req : Req) (path : String) (bn rp : String) (rt : RequestType)
        (akid : String) (cred : Credential) (last : Char),
      validation_request_header req.headers
        ["Host", "Date", "Content-Length", "Content-Type", "Authorization"] = .ok () →
      validation_request_authorization req.headers = .ok () →
      validation_date c.parseDate c.now req.headers = .ok () →
      validation_filesize req.data.length (hget req.headers "Content-Length") = .ok () →
      get_request_information c.settings (hget req.headers "Host") path = .ok (bn, rp, rt) →
      get_request_access_key_id req.headers = .ok akid →
      (∀ raw, authorization_request c.hmacB64 c.settings req.headers bn akid raw = .ok ()) →
      rp.data.getLast? = some last →
      last ≠ '/' →
      get_credential c.settings bn akid = .ok (some cred) →
      alookup cred.permission "upload" = some false →
      ∀ fs : FSNode, put_object c req path fs = (fs, .error .AccessDenied)) ∧
    (∀ (c : Ctx) (req : Req) (path : String) (bn rp : String) (rt : RequestType)
        (akid : String) (cred : Credential),
      validation_request_header req.headers ["Host", "Date", "Authorization"] = .ok () →
      validation_request_authorization req.headers = .ok () →
      validation_date c.parseDate c.now req.headers = .ok () →
      get_request_information c.settings (hget req.headers "Host") path = .ok (bn, rp, rt) →
      get_request_access_key_id req.headers = .ok akid →
      (∀ raw, authorization_request c.hmacB64 c.settings req.headers bn akid raw = .ok ()) →
      get_credential c.settings bn akid = .ok (some cred) →
      alookup cred.permission "delete" = some false →
      ∀ fs : FSNode, delete_object c req path fs = (fs, .error .AccessDenied)) := by
  refine ⟨?_, ?_, ?_, ?_, ?_, ?_, ?_, ?_⟩
  · intro c req path fs bn rp rt akid e h1 h2 h3 h4 h5 h6
    simp only [get_object, h1, h2, h3, h4, h5, h6, bind, Except.bind]
  · intro c req path fs bn rp rt akid e h1 h2 h3 h4 h5 h6 h7
    simp only [put_object, put_object_checks, h1, h2, h3, h4, h5, h6, h7, bind, Except.bind]
  · intro c req path fs bn rp rt akid e h1 h2 h3 h4 h5 h6
    simp only [delete_object, delete_object_checks, h1, h2, h3, h4, h5, h6, bind, Except.bind]
  · intro c req path bn rp rt akid cred h1 h2 h3 h4 h5 h6 hrp hcred hperm fs
    simp only [get_object, h1, h2, h3, h4, h5, h6, bind, Except.bind]
    simp only [if_neg hrp]
    simp [permission_check, hcred, hperm]
  · intro c req path bn rp rt akid cred h1 h2 h3 h4 h5 h6 hrp hcred hperm fs
    simp only [get_object, h1, h2, h3, h4, h5, h6, bind, Except.bind]
    simp only [if_pos hrp]
    simp [permission_check, hcred, hperm]
  · intro c req path bn rp rt akid cred h1 h2 h3 h4 h5 h6 h7 hlast hcred hperm fs
    simp only [put_object, put_object_checks, h1, h2, h3, h4, h5, h6, h7, hlast,
      bind, Except.bind]
    simp [permission_check, hcred, hperm]
  · intro c req path bn rp rt akid cred last h1 h2 h3 h4 h5 h6 h7 hlast hne hcred hperm fs
    simp only [put_object, put_object_checks, h1, h2, h3, h4, h5, h6, h7, hlast,
      bind, Except.bind]
    rw [if_neg hne]
    simp [permission_check, hcred, hperm]
  · intro c req path bn rp rt akid cred h1 h2 h3 h4 h5 h6 hcred hperm fs
    simp only [delete_object, delete_object_checks, h1, h2, h3, h4, h5, h6, bind, Except.bind]
    simp [permission_check, hcred, hperm]

/-- Claim C6 witness: against a credential with every permission set to
false, a bad-signature GET, PUT and DELETE each stop at
`SignatureDoesNotMatch` with the filesystem untouched; with a valid
signature, the object GET fails with `AccessDenied` both when the key
exists and when it does not, and the bucket-list GET, directory-key PUT,
file-key PUT and DELETE each fail with `AccessDenied` leaving the
filesystem unchanged. -/
theorem C6_witness :
    get_object
      ⟨⟨"example.com", [("b", ⟨"/data/b", [⟨"AK", "SK",
          [("list", false), ("download", false), ("upload", false),
            ("mkdir", false), ("delete", false)]⟩]⟩)]⟩,
        fun _ _ => "SIG", fun _ => some 0, fun _ => "MD5", fun _ => "T", 0⟩
      ⟨[("Host", "h"), ("Date", "d"), ("Authorization", "AWS AK:BAD")], [], []⟩ "b/x"
      (.dir [("x", .file [9] 0)]) = .error .SignatureDoesNotMatch ∧
    put_object
      ⟨⟨"example.com", [("b", ⟨"/data/b", [⟨"AK", "SK",
          [("list", false), ("download", false), ("upload", false),
            ("mkdir", false), ("delete", false)]⟩]⟩)]⟩,
        fun _ _ => "SIG", fun _ => some 0, fun _ => "MD5", fun _ => "T", 0⟩
      ⟨[("Host", "h"), ("Date", "d"), ("Authorization", "AWS AK:BAD"),
        ("Content-Length", "0"), ("Content-Type", "x")], [], []⟩ "b/x"
      (.dir []) = (.dir [], .error .SignatureDoesNotMatch) ∧
    delete_object
      ⟨⟨"example.com", [("b", ⟨"/data/b", [⟨"AK", "SK",
          [("list", false), ("download", false), ("upload", false),
            ("mkdir", false), ("delete", false)]⟩]⟩)]⟩,
        fun _ _ => "SIG", fun _ => some 0, fun _ => "MD5", fun _ => "T", 0⟩
      ⟨[("Host", "h"), ("Date", "d"), ("Authorization", "AWS AK:BAD")], [], []⟩ "b/x"
      (.dir []) = (.dir [], .error .SignatureDoesNotMatch) ∧
    get_object
      ⟨⟨"example.com", [("b", ⟨"/data/b", [⟨"AK", "SK",
          [("list", false), ("download", false), ("upload", false),
            ("mkdir", false), ("delete", false)]⟩]⟩)]⟩,
        fun _ _ => "SIG", fun _ => some 0, fun _ => "MD5", fun _ => "T", 0⟩
      ⟨[("Host", "h"), ("Date", "d"), ("Authorization", "AWS AK:SIG")], [], []⟩ "b/x"
      (.dir [("x", .file [9] 0)]) = .error .AccessDenied ∧
    get_object
      ⟨⟨"example.com", [("b", ⟨"/data/b", [⟨"AK", "SK",
          [("list", false), ("download", false), ("upload", false),
            ("mkdir", false), ("delete", false)]⟩]⟩)]⟩,
        fun _ _ => "SIG", fun _ => some 0, fun _ => "MD5", fun _ => "T", 0⟩
      ⟨[("Host", "h"), ("Date", "d"), ("Authorization", "AWS AK:SIG")], [], []⟩ "b/x"
      (.dir []) = .error .AccessDenied ∧
    get_object
      ⟨⟨"example.com", [("b", ⟨"/data/b", [⟨"AK", "SK",
          [("list", false), ("download", false), ("upload", false),
            ("mkdir", false), ("delete", false)]⟩]⟩)]⟩,
        fun _ _ => "SIG", fun _ => some 0, fun _ => "MD5", fun _ => "T", 0⟩
      ⟨[("Host", "h"), ("Date", "d"), ("Authorization", "AWS AK:SIG")], [], []⟩ "b"
      (.dir [("x", .file [9] 0)]) = .error .AccessDenied ∧
    put_object
      ⟨⟨"example.com", [("b", ⟨"/data/b", [⟨"AK", "SK",
          [("list", false), ("download", false), ("upload", false),
            ("mkdir", false), ("delete", false)]⟩]⟩)]⟩,
        fun _ _ => "SIG", fun _ => some 0, fun _ => "MD5", fun _ => "T", 0⟩
      ⟨[("Host", "h"), ("Date", "d"), ("Authorization", "AWS AK:SIG"),
        ("Content-Length", "0"), ("Content-Type", "x")], [], []⟩ "b/d/"
      (.dir []) = (.dir [], .error .AccessDenied) ∧
    put_object
      ⟨⟨"example.com", [("b", ⟨"/data/b", [⟨"AK", "SK",
          [("list", false), ("download", false), ("upload", false),
            ("mkdir", false), ("delete", false)]⟩]⟩)]⟩,
        fun _ _ => "SIG", fun _ => some 0, fun _ => "MD5", fun _ => "T", 0⟩
      ⟨[("Host", "h"), ("Date", "d"), ("Authorization", "AWS AK:SIG"),
        ("Content-Length", "0"), ("Content-Type", "x")], [], []⟩ "b/x"
      (.dir []) = (.dir [], .error .AccessDenied) ∧
    delete_object
      ⟨⟨"example.com", [("b", ⟨"/data/b", [⟨"AK", "SK",
          [("list", false), ("download", false), ("upload", false),
            ("mkdir", false), ("delete", false)]⟩]⟩)]⟩,
        fun _ _ => "SIG", fun _ => some 0, fun _ => "MD5", fun _ => "T", 0⟩
      ⟨[("Host", "h"), ("Date", "d"), ("Authorization", "AWS AK:SIG")], [], []⟩ "b/x"
      (.dir []) = (.dir [], .error .AccessDenied) := by
  refine ⟨?_, ?_, ?_, ?_, ?_, ?_, ?_, ?_, ?_⟩
  · exact C6_theorem.1
      ⟨⟨"example.com", [("b", ⟨"/data/b", [⟨"AK", "SK",
          [("list", false), ("download", false), ("upload", false),
            ("mkdir", false), ("delete", false)]⟩]⟩)]⟩,
        fun _ _ => "SIG", fun _ => some 0, fun _ => "MD5", fun _ => "T", 0⟩
      ⟨[("Host", "h"), ("Date", "d"), ("Authorization", "AWS AK:BAD")], [], []⟩ "b/x"
      (.dir [("x", .file [9] 0)]) "b" "x" .Path "AK" .SignatureDoesNotMatch
      rfl rfl rfl rfl rfl (fun _ => rfl)
  · exact C6_theorem.2.1
      ⟨⟨"example.com", [("b", ⟨"/data/b", [⟨"AK", "SK",
          [("list", false), ("download", false), ("upload", false),
            ("mkdir", false), ("delete", false)]⟩]⟩)]⟩,
        fun _ _ => "SIG", fun _ => some 0, fun _ => "MD5", fun _ => "T", 0⟩
      ⟨[("Host", "h"), ("Date", "d"), ("Authorization", "AWS AK:BAD"),
        ("Content-Length", "0"), ("Content-Type", "x")], [], []⟩ "b/x"
      (.dir []) "b" "x" .Path "AK" .SignatureDoesNotMatch
      rfl rfl rfl rfl rfl rfl (fun _ => rfl)
  · exact C6_theorem.2.2.1
      ⟨⟨"example.com", [("b", ⟨"/data/b", [⟨"AK", "SK",
          [("list", false), ("download", false), ("upload", false),
            ("mkdir", false), ("delete", false)]⟩]⟩)]⟩,
        fun _ _ => "SIG", fun _ => some 0, fun _ => "MD5", fun _ => "T", 0⟩
      ⟨[("Host", "h"), ("Date", "d"), ("Authorization", "AWS AK:BAD")], [], []⟩ "b/x"
      (.dir []) "b" "x" .Path "AK" .SignatureDoesNotMatch
      rfl rfl rfl rfl rfl (fun _ => rfl)
  · exact C6_theorem.2.2.2.1
      ⟨⟨"example.com", [("b", ⟨"/data/b", [⟨"AK", "SK",
          [("list", false), ("download", false), ("upload", false),
            ("mkdir", false), ("delete", false)]⟩]⟩)]⟩,
        fun _ _ => "SIG", fun _ => some 0, fun _ => "MD5", fun _ => "T", 0⟩
      ⟨[("Host", "h"), ("Date", "d"), ("Authorization", "AWS AK:SIG")], [], []⟩ "b/x"
      "b" "x" .Path "AK"
      ⟨"AK", "SK", [("list", false), ("download", false), ("upload", false),
        ("mkdir", false), ("delete", false)]⟩
      rfl rfl rfl rfl rfl (fun _ => rfl) (by decide) rfl rfl (.dir [("x", .file [9] 0)])
  · exact C6_theorem.2.2.2.1
      ⟨⟨"example.com", [("b", ⟨"/data/b", [⟨"AK", "SK",
          [("list", false), ("download", false), ("upload", false),
            ("mkdir", false), ("delete", false)]⟩]⟩)]⟩,
        fun _ _ => "SIG", fun _ => some 0, fun _ => "MD5", fun _ => "T", 0⟩
      ⟨[("Host", "h"), ("Date", "d"), ("Authorization", "AWS AK:SIG")], [], []⟩ "b/x"
      "b" "x" .Path "AK"
      ⟨"AK", "SK", [("list", false), ("download", false), ("upload", false),
        ("mkdir", false), ("delete", false)]⟩
      rfl rfl rfl rfl rfl (fun _ => rfl) (by decide) rfl rfl (.dir [])
  · exact C6_theorem.2.2.2.2.1
      ⟨⟨"example.com", [("b", ⟨"/data/b", [⟨"AK", "SK",
          [("list", false), ("download", false), ("upload", false),
            ("mkdir", false), ("delete", false)]⟩]⟩)]⟩,
        fun _ _ => "SIG", fun _ => some 0, fun _ => "MD5", fun _ => "T", 0⟩
      ⟨[("Host", "h"), ("Date", "d"), ("Authorization", "AWS AK:SIG")], [], []⟩ "b"
      "b" "" .Path "AK"
      ⟨"AK", "SK", [("list", false), ("download", false), ("upload", false),
        ("mkdir", false), ("delete", false)]⟩
      rfl rfl rfl rfl rfl (fun _ => rfl) rfl rfl rfl (.dir [("x", .file [9] 0)])
  · exact C6_theorem.2.2.2.2.2.1
      ⟨⟨"example.com", [("b", ⟨"/data/b", [⟨"AK", "SK",
          [("list", false), ("download", false), ("upload", false),
            ("mkdir", false), ("delete", false)]⟩]⟩)]⟩,
        fun _ _ => "SIG", fun _ => some 0, fun _ => "MD5", fun _ => "T", 0⟩
      ⟨[("Host", "h"), ("Date", "d"), ("Authorization", "AWS AK:SIG"),
        ("Content-Length", "0"), ("Content-Type", "x")], [], []⟩ "b/d/"
      "b" "d/" .Path "AK"
      ⟨"AK", "SK", [("list", false), ("download", false), ("upload", false),
        ("mkdir", false), ("delete", false)]⟩
      rfl rfl rfl rfl rfl rfl (fun _ => rfl) rfl rfl rfl (.dir [])
  · exact C6_theorem.2.2.2.2.2.2.1
      ⟨⟨"example.com", [("b", ⟨"/data/b", [⟨"AK", "SK",
          [("list", false), ("download", false), ("upload", false),
            ("mkdir", false), ("delete", false)]⟩]⟩)]⟩,
        fun _ _ => "SIG", fun _ => some 0, fun _ => "MD5", fun _ => "T", 0⟩
      ⟨[("Host", "h"), ("Date", "d"), ("Authorization", "AWS AK:SIG"),
        ("Content-Length", "0"), ("Content-Type", "x")], [], []⟩ "b/x"
      "b" "x" .Path "AK"
      ⟨"AK", "SK", [("list", false), ("download", false), ("upload", false),
        ("mkdir", false), ("delete", false)]⟩ 'x'
      rfl rfl rfl rfl rfl rfl (fun _ => rfl) rfl (by decide) rfl rfl (.dir [])
  · exact C6_theorem.2.2.2.2.2.2.2
      ⟨⟨"example.com", [("b", ⟨"/data/b", [⟨"AK", "SK",
          [("list", false), ("download", false), ("upload", false),
            ("mkdir", false), ("delete", false)]⟩]⟩)]⟩,
        fun _ _ => "SIG", fun _ => some 0, fun _ => "MD5", fun _ => "T", 0⟩
      ⟨[("Host", "h"), ("Date", "d"), ("Authorization", "AWS AK:SIG")], [], []⟩ "b/x"
      "b" "x" .Path "AK"
      ⟨"AK", "SK", [("list", false), ("download", false), ("upload", false),
        ("mkdir", false), ("delete", false)]⟩
      rfl rfl rfl rfl rfl (fun _ => rfl) rfl rfl (.dir [])

/-! ## C4 — upload/download round trip

Shared tree lemmas: writing then resolving, `makedirs` on an existing path,
and re-writing an existing file. -/

/-- Updating an association list and looking the key up yields the value. -/
theorem alookup_assocSet_self {α : Type} (l : List (String × α)) (k : String) (v : α) :
    alookup (assocSet l k v) k = some v := by
  induction l with
  | nil => simp [assocSet, alookup]
  | cons p rest ih =>
    rcases p with ⟨k0, v0⟩
    by_cases hk : k0 = k
    · simp [assocSet, hk, alookup]
    · simp [assocSet, hk, alookup, ih]

/-- Re-inserting the value an association list already holds is the identity. -/
theorem assocSet_self_of_alookup {α : Type} (l : List (String × α)) (k : String) (v : α)
    (h : alookup l k = some v) : assocSet l k v = l := by
  induction l with
  | nil => simp [alookup] at h
  | cons p rest ih =>
    rcases p with ⟨k0, v0⟩
    by_cases hk : k0 = k
    · simp only [alookup, hk, if_pos] at h
      simp only [Option.some.injEq] at h
      simp [assocSet, hk, h]
    · simp only [alookup, hk, if_neg, ite_false] at h
      simp [assocSet, hk, ih h]

/-- A successful `treeWrite` leaves exactly the written file at the path. -/
theorem resolve_treeWrite : ∀ (fs fs2 : FSNode) (segs : List String) (d : List Nat) (mt : Int),
    treeWrite fs segs d mt = some fs2 → resolve fs2 segs = some (.file d mt) := by
  intro fs fs2 segs
  induction segs generalizing fs fs2 with
  | nil => intro d mt h; simp [treeWrite] at h
  | cons s rest ih =>
    intro d mt h
    cases fs with
    | file c m => simp [treeWrite] at h
    | dir ch =>
      cases rest with
      | nil =>
        simp only [treeWrite] at h
        cases ha : alookup ch s with
        | none =>
          rw [ha] at h
          dsimp only at h
          have h2 : FSNode.dir (assocSet ch s (.file d mt)) = fs2 := by
            simpa using h
          subst h2
          simp [resolve, alookup_assocSet_self]
        | some node =>
          rw [ha] at h
          cases node with
          | dir ch2 => simp at h
          | file c2 m2 =>
            dsimp only at h
            have h2 : FSNode.dir (assocSet ch s (.file d mt)) = fs2 := by
              simpa using h
            subst h2
            simp [resolve, alookup_assocSet_self]
      | cons r rs =>
        simp only [treeWrite] at h
        cases ha : alookup ch s with
        | none => rw [ha] at h; simp at h
        | some sub =>
          rw [ha] at h
          dsimp only at h
          cases hw : treeWrite sub (r :: rs) d mt with
          | none => rw [hw] at h; simp at h
          | some sub2 =>
            rw [hw] at h
            have h2 : FSNode.dir (assocSet ch s sub2) = fs2 := by simpa using h
            subst h2
            simp [resolve, alookup_assocSet_self, ih sub sub2 d mt hw]

/-- Resolving a concatenated path goes through the intermediate node. -/
theorem resolve_append : ∀ (fs : FSNode) (a b : List String),
    resolve fs (a ++ b) = (resolve fs a).bind (fun n => resolve n b) := by
  intro fs a
  induction a generalizing fs with
  | nil => intro b; simp [resolve]
  | cons s rest ih =>
    intro b
    cases fs with
    | file c m => simp [resolve]
    | dir ch =>
      simp only [List.cons_append, resolve]
      cases ha : alookup ch s with
      | none => simp
      | some sub => simp [ih sub b]

/-- `os.makedirs` over a path that already resolves is the identity (the
`OSError` for the already-existing directory is swallowed). -/
theorem treeMakedirs_id_of_resolve : ∀ (fs : FSNode) (q : List String) (n : FSNode),
    resolve fs q = some n → treeMakedirs fs q = fs := by
  intro fs q
  induction q generalizing fs with
  | nil => intro n _; cases fs <;> simp [treeMakedirs]
  | cons s rest ih =>
    intro n h
    cases fs with
    | file c m => simp [treeMakedirs]
    | dir ch =>
      simp only [resolve] at h
      cases ha : alookup ch s with
      | none => rw [ha] at h; simp at h
      | some sub =>
        rw [ha] at h
        dsimp only at h
        simp only [treeMakedirs, ha]
        rw [ih sub n h, assocSet_self_of_alookup ch s sub ha]

/-- Overwriting an existing regular file always succeeds. -/
theorem treeWrite_some_of_file : ∀ (fs : FSNode) (segs : List String) (ct : List Nat) (m : Int)
    (d : List Nat) (mt : Int), segs ≠ [] → resolve fs segs = some (.file ct m) →
    ∃ fs2, treeWrite fs segs d mt = some fs2 := by
  intro fs segs
  induction segs generalizing fs with
  | nil => intro ct m d mt hne _; exact absurd rfl hne
  | cons s rest ih =>
    intro ct m d mt _ h
    cases fs with
    | file c2 m2 => simp [resolve] at h
    | dir ch =>
      simp only [resolve] at h
      cases ha : alookup ch s with
      | none => rw [ha] at h; simp at h
      | some sub =>
        rw [ha] at h
        dsimp only at h
        cases rest with
        | nil =>
          simp only [resolve] at h
          have hsub : sub = FSNode.file ct m := by simpa using h
          subst hsub
          refine ⟨.dir (assocSet ch s (.file d mt)), ?_⟩
          simp [treeWrite, ha]
        | cons r rs =>
          obtain ⟨sub2, hsub2⟩ := ih sub ct m d mt (by simp) h
          refine ⟨.dir (assocSet ch s sub2), ?_⟩
          simp [treeWrite, ha, hsub2]

/-- Claim C4: uploading bytes `B` to a non-directory key whose write
succeeds answers `OK` with `ETag` equal to the double-quoted checksum of
`B`; downloading the key afterwards returns exactly `B`; re-uploading
different bytes `B2` overwrites in place, after which the download returns
`B2` under the new quoted-checksum `ETag` (no versioning). -/
theorem C4_theorem (c : Ctx) (fs : FSNode) (k : String) (B B2 : List Nat)
    (h : ∃ fs2, treeWrite (treeMakedirs fs (segsOf k).dropLast) (segsOf k) B c.now = some fs2) :
    (fileupload c B k fs).2 = .ok (.text "OK" [("ETag", "\"" ++ c.md5hex B ++ "\"")]) ∧
    return_object (fileupload c B k fs).1 (segsOf k) = .ok (.bytes B) ∧
    (fileupload c B2 k (fileupload c B k fs).1).2
      = .ok (.text "OK" [("ETag", "\"" ++ c.md5hex B2 ++ "\"")]) ∧
    return_object (fileupload c B2 k (fileupload c B k fs).1).1 (segsOf k)
      = .ok (.bytes B2) := by
  obtain ⟨fs2, hw⟩ := h
  have hsegne : segsOf k ≠ [] := by
    intro he; rw [he] at hw; simp [treeWrite] at hw
  have hres2 : resolve fs2 (segsOf k) = some (.file B c.now) :=
    resolve_treeWrite _ _ _ _ _ hw
  have hfu1 : fileupload c B k fs
      = (fs2, .ok (.text "OK" [("ETag", "\"" ++ c.md5hex B ++ "\"")])) := by
    simp [fileupload, hw, hres2]
  have hmk : treeMakedirs fs2 (segsOf k).dropLast = fs2 := by
    have hsplit := List.dropLast_append_getLast hsegne
    have hres2b := hres2
    rw [← hsplit, resolve_append] at hres2b
    cases hd : resolve fs2 (segsOf k).dropLast with
    | none => rw [hd] at hres2b; simp at hres2b
    | some n => exact treeMakedirs_id_of_resolve fs2 _ n hd
  obtain ⟨fs3, hw2⟩ := treeWrite_some_of_file fs2 (segsOf k) B c.now B2 c.now hsegne hres2
  have hres3 : resolve fs3 (segsOf k) = some (.file B2 c.now) :=
    resolve_treeWrite _ _ _ _ _ hw2
  have hfu2 : fileupload c B2 k fs2
      = (fs3, .ok (.text "OK" [("ETag", "\"" ++ c.md5hex B2 ++ "\"")])) := by
    simp [fileupload, hmk, hw2, hres3]
  rw [hfu1]
  refine ⟨rfl, ?_, ?_, ?_⟩
  · simp [return_object, hres2]
  · simp [hfu2]
  · simp [hfu2, return_object, hres3]

/-- Claim C4 witness: bytes `[1]` then `[2, 3]` through key `a/b` on an
empty bucket, under a checksum stub separating the two contents. -/
theorem C4_witness :
    (fileupload ⟨⟨"vh", []⟩, fun _ _ => "S", fun _ => some 0,
        fun l => if l = [1] then "H1" else "H2", fun _ => "T", 0⟩ [1] "a/b" (.dir [])).2
      = .ok (.text "OK" [("ETag", "\"H1\"")]) ∧
    return_object (fileupload ⟨⟨"vh", []⟩, fun _ _ => "S", fun _ => some 0,
        fun l => if l = [1] then "H1" else "H2", fun _ => "T", 0⟩ [1] "a/b" (.dir [])).1
        (segsOf "a/b") = .ok (.bytes [1]) ∧
    (fileupload ⟨⟨"vh", []⟩, fun _ _ => "S", fun _ => some 0,
        fun l => if l = [1] then "H1" else "H2", fun _ => "T", 0⟩ [2, 3] "a/b"
        (fileupload ⟨⟨"vh", []⟩, fun _ _ => "S", fun _ => some 0,
          fun l => if l = [1] then "H1" else "H2", fun _ => "T", 0⟩ [1] "a/b" (.dir [])).1).2
      = .ok (.text "OK" [("ETag", "\"H2\"")]) ∧
    return_object (fileupload ⟨⟨"vh", []⟩, fun _ _ => "S", fun _ => some 0,
        fun l => if l = [1] then "H1" else "H2", fun _ => "T", 0⟩ [2, 3] "a/b"
        (fileupload ⟨⟨"vh", []⟩, fun _ _ => "S", fun _ => some 0,
          fun l => if l = [1] then "H1" else "H2", fun _ => "T", 0⟩ [1] "a/b" (.dir [])).1).1
        (segsOf "a/b") = .ok (.bytes [2, 3]) :=
  C4_theorem ⟨⟨"vh", []⟩, fun _ _ => "S", fun _ => some 0,
      fun l => if l = [1] then "H1" else "H2", fun _ => "T", 0⟩ (.dir []) "a/b" [1] [2, 3]
    ⟨.dir [("a", .dir [("b", .file [1] 0)])], rfl⟩

/-! ## C1 — path containment under the bucket root

Lemmas about the CPython split/join/normpath algorithms, leading to: for a
clean absolute root, keys without `..` segments resolve inside the root,
while `..` segments are not rejected and can escape (the counterexample). -/

/-- Python `split` never returns an empty group list. -/
theorem splitChar_ne_nil (sep : Char) (l : List Char) : splitChar sep l ≠ [] := by
  cases l with
  | nil => simp [splitChar]
  | cons c cs =>
    simp only [splitChar]
    cases h : splitChar sep cs with
    | nil => simp
    | cons g gs => by_cases hc : c = sep <;> simp [hc]

/-- Splitting a concatenation at a separator splits each side. -/
theorem splitChar_append_sep (sep : Char) (a b : List Char) :
    splitChar sep (a ++ sep :: b) = splitChar sep a ++ splitChar sep b := by
  induction a with
  | nil =>
    simp only [List.nil_append, splitChar]
    cases h : splitChar sep b with
    | nil => exact absurd h (splitChar_ne_nil sep b)
    | cons g gs => simp
  | cons c cs ih =>
    cases h : splitChar sep cs with
    | nil => exact absurd h (splitChar_ne_nil sep cs)
    | cons g gs =>
      by_cases hc : c = sep <;>
        simp [List.cons_append, splitChar, ih, h, hc]

/-- A separator-free string splits into itself. -/
theorem splitChar_no_sep (sep : Char) (x : List Char) (h : sep ∉ x) :
    splitChar sep x = [x] := by
  induction x with
  | nil => rfl
  | cons c cs ih =>
    simp only [List.mem_cons, not_or] at h
    have hcs : ¬ c = sep := fun hc => h.1 hc.symm
    simp [splitChar, ih h.2, hcs]

/-- Splitting a slash-joined list of slash-free components recovers it. -/
theorem splitSlash_joinSlashC (l : List (List Char)) (hl : ∀ x ∈ l, '/' ∉ x) (hne : l ≠ []) :
    splitSlash (joinSlashC l) = l := by
  induction l with
  | nil => exact absurd rfl hne
  | cons x xs ih =>
    cases xs with
    | nil =>
      simp only [joinSlashC]
      exact splitChar_no_sep '/' x (hl x (by simp))
    | cons y ys =>
      have hx : '/' ∉ x := hl x (by simp)
      simp only [joinSlashC, splitSlash] at ih ⊢
      rw [splitChar_append_sep, splitChar_no_sep '/' x hx,
        ih (fun z hz => hl z (by simp [hz])) (by simp)]
      simp

/-- Slash-joining distributes over concatenation of nonempty lists. -/
theorem joinSlashC_append (l1 l2 : List (List Char)) (h1 : l1 ≠ []) (h2 : l2 ≠ []) :
    joinSlashC (l1 ++ l2) = joinSlashC l1 ++ '/' :: joinSlashC l2 := by
  induction l1 with
  | nil => exact absurd rfl h1
  | cons x xs ih =>
    cases xs with
    | nil =>
      cases l2 with
      | nil => exact absurd rfl h2
      | cons y ys => simp [joinSlashC]
    | cons z zs =>
      have h3 := ih (by simp)
      simp only [List.cons_append, joinSlashC, List.append_eq] at h3 ⊢
      rw [h3]
      simp

/-- Splitting after a leading separator emits one empty group. -/
theorem splitChar_cons_sep (sep : Char) (l : List Char) :
    splitChar sep (sep :: l) = [] :: splitChar sep l := by
  simp only [splitChar]
  cases h : splitChar sep l with
  | nil => exact absurd h (splitChar_ne_nil sep l)
  | cons g gs => simp

/-- A slash-join of nonempty slash-free components starts with a non-slash
character. -/
theorem joinSlashC_head_shape (l : List (List Char))
    (hl : ∀ x ∈ l, x ≠ [] ∧ '/' ∉ x) (hne : l ≠ []) :
    ∃ c t, joinSlashC l = c :: t ∧ c ≠ '/' := by
  cases l with
  | nil => exact absurd rfl hne
  | cons x xs =>
    obtain ⟨hx1, hx2⟩ := hl x (by simp)
    cases x with
    | nil => exact absurd rfl hx1
    | cons c cs =>
      have hc : c ≠ '/' := by intro h; exact hx2 (h ▸ List.mem_cons_self c cs)
      cases xs with
      | nil => exact ⟨c, cs, rfl, hc⟩
      | cons y ys => exact ⟨c, cs ++ '/' :: joinSlashC (y :: ys), by simp [joinSlashC], hc⟩

/-- A slash-join of nonempty slash-free components ends with a non-slash
character. -/
theorem joinSlashC_last_shape (l : List (List Char))
    (hl : ∀ x ∈ l, x ≠ [] ∧ '/' ∉ x) (hne : l ≠ []) :
    ∃ t c, joinSlashC l = t ++ [c] ∧ c ≠ '/' := by
  induction l with
  | nil => exact absurd rfl hne
  | cons x xs ih =>
    obtain ⟨hx1, hx2⟩ := hl x (by simp)
    cases xs with
    | nil =>
      refine ⟨x.dropLast, x.getLast hx1, ?_, ?_⟩
      · simpa [joinSlashC] using (List.dropLast_append_getLast hx1).symm
      · intro h; exact hx2 (h ▸ List.getLast_mem hx1)
    | cons y ys =>
      obtain ⟨t, c, hjoin, hc⟩ := ih (fun z hz => hl z (by simp [hz])) (by simp)
      refine ⟨x ++ '/' :: t, c, ?_, hc⟩
      simp [joinSlashC, hjoin]

/-- The `normpath` component loop over `..`-free components keeps exactly
the nonempty non-dot components, in order. -/
theorem foldl_normStep (s : Nat) : ∀ (l acc : List (List Char)),
    (∀ x ∈ l, x ≠ ['.', '.']) →
    l.foldl (normStep s) acc
      = acc ++ l.filter (fun x => decide (x ≠ [] ∧ x ≠ ['.'])) := by
  intro l
  induction l with
  | nil => intro acc _; simp
  | cons x xs ih =>
    intro acc h
    by_cases hx : x = [] ∨ x = ['.']
    · have hstep : normStep s acc x = acc := by simp [normStep, hx]
      have hfil : (decide (x ≠ [] ∧ x ≠ ['.'])) = false := by
        rcases hx with hx | hx <;> simp [hx]
      simp only [List.foldl_cons, hstep, List.filter_cons, hfil,
        ih acc (fun z hz => h z (by simp [hz]))]
      simp
    · push_neg at hx
      have hxdd : x ≠ ['.', '.'] := h x (by simp)
      have hstep : normStep s acc x = acc ++ [x] := by
        simp [normStep, hx.1, hx.2, hxdd]
      have hfil : (decide (x ≠ [] ∧ x ≠ ['.'])) = true := by simp [hx.1, hx.2]
      simp only [List.foldl_cons, hstep, List.filter_cons, hfil,
        ih (acc ++ [x]) (fun z hz => h z (by simp [hz]))]
      simp

/-- Normalizing `<clean absolute root>/<..-free remainder>` yields the root
itself or the root extended by a `/` and a suffix — never a path outside
the root. -/
theorem normpath_root_clean (rcs : List (List Char)) (rem : List Char)
    (hrcs : ∀ x ∈ rcs, x ≠ [] ∧ x ≠ ['.'] ∧ x ≠ ['.', '.'] ∧ '/' ∉ x)
    (hne : rcs ≠ [])
    (hnodd : ∀ x ∈ splitSlash rem, x ≠ ['.', '.']) :
    normpath ('/' :: (joinSlashC rcs ++ '/' :: rem)) = '/' :: joinSlashC rcs ∨
    ∃ t, normpath ('/' :: (joinSlashC rcs ++ '/' :: rem))
      = '/' :: (joinSlashC rcs ++ '/' :: t) := by
  obtain ⟨c, t0, hshape, hc⟩ :=
    joinSlashC_head_shape rcs (fun x hx => ⟨(hrcs x hx).1, (hrcs x hx).2.2.2⟩) hne
  have hslashes : initialSlashes ('/' :: (joinSlashC rcs ++ '/' :: rem)) = 1 := by
    rw [hshape]
    simp [initialSlashes, hc]
  have hsplit : splitSlash ('/' :: (joinSlashC rcs ++ '/' :: rem))
      = [] :: (rcs ++ splitSlash rem) := by
    simp only [splitSlash]
    rw [splitChar_cons_sep, splitChar_append_sep]
    have hj : splitChar '/' (joinSlashC rcs) = rcs :=
      splitSlash_joinSlashC rcs (fun x hx => (hrcs x hx).2.2.2) hne
    rw [hj]
  have hrcsfil : rcs.filter (fun x => decide (x ≠ [] ∧ x ≠ ['.'])) = rcs := by
    rw [List.filter_eq_self]
    intro x hx
    simp [(hrcs x hx).1, (hrcs x hx).2.1]
  have hfold : (splitSlash ('/' :: (joinSlashC rcs ++ '/' :: rem))).foldl (normStep 1) []
      = rcs ++ (splitSlash rem).filter (fun x => decide (x ≠ [] ∧ x ≠ ['.'])) := by
    rw [hsplit, List.foldl_cons]
    have h0 : normStep 1 [] [] = [] := by simp [normStep]
    rw [h0, List.foldl_append,
      foldl_normStep 1 rcs [] (fun x hx => (hrcs x hx).2.2.1),
      List.nil_append, hrcsfil,
      foldl_normStep 1 (splitSlash rem) rcs hnodd]
  have hpne : ('/' :: (joinSlashC rcs ++ '/' :: rem)) ≠ ([] : List Char) := by simp
  simp only [normpath, if_neg hpne, hslashes, hfold]
  cases hfil : (splitSlash rem).filter (fun x => decide (x ≠ [] ∧ x ≠ ['.'])) with
  | nil =>
    left
    simp
  | cons f fsx =>
    right
    refine ⟨joinSlashC (f :: fsx), ?_⟩
    rw [joinSlashC_append rcs (f :: fsx) hne (by simp)]
    simp

/-- A list is a leading part of itself extended by anything. -/
theorem startsWithC_append_self (a b : List Char) : startsWithC a (a ++ b) = true := by
  induction a with
  | nil => rfl
  | cons c cs ih => simp [startsWithC, ih]

/-- `posixpath.join` of an absolute first path is absolute. -/
theorem os_join_abs (a b : List Char) (h : a.take 1 = ['/']) :
    (os_join a b).take 1 = ['/'] := by
  cases a with
  | nil => simp at h
  | cons c as =>
    have hcc : c = '/' := by simpa using h
    subst hcc
    unfold os_join
    by_cases hb : b.take 1 = ['/']
    · rw [if_pos hb]; exact hb
    · rw [if_neg hb]
      split <;> simp

/-- `normpath` of an absolute path is absolute. -/
theorem normpath_abs (p : List Char) (h : p.take 1 = ['/']) :
    (normpath p).take 1 = ['/'] := by
  have hpne : p ≠ [] := by intro he; rw [he] at h; simp at h
  have hslash : initialSlashes p = 1 ∨ initialSlashes p = 2 := by
    unfold initialSlashes
    rw [if_pos h]
    by_cases hq : p.take 2 = ['/', '/'] ∧ p.take 3 ≠ ['/', '/', '/']
    · right; rw [if_pos hq]
    · left; rw [if_neg hq]
  unfold normpath
  rw [if_neg hpne]
  rcases hslash with hs | hs <;> rw [hs] <;> simp

/-- Claim C1, counterexample: a key with `..` segments resolves to an
absolute path outside the bucket root, unrejected (`convert_local_path`
only joins and normalizes, app.py lines 181-188); a key beginning with `/`
discards the root entirely via `os.path.join`. -/
theorem C1_counterexample :
    convert_local_path "/srv" "/data/b" "../etc/passwd" = "/data/etc/passwd" ∧
    isUnder "/data/b" (convert_local_path "/srv" "/data/b" "../etc/passwd") = false ∧
    convert_local_path "/srv" "/data/b" "/etc/shadow" = "/etc/shadow" ∧
    isUnder "/data/b" (convert_local_path "/srv" "/data/b" "/etc/shadow") = false := by
  exact ⟨rfl, rfl, rfl, rfl⟩

/-- Claim C1 as amended: every path produced by `convert_local_path` under
an absolute root is an absolute path, and for keys that do not begin with
`/` and contain no `..` segment the path is a descendant of the (clean,
normalized, non-`/`) bucket root; keys with `..` segments or a leading `/`
are not rejected and can resolve outside the root. -/
theorem C1_theorem :
    (∀ (cwd root remote : String), root.data.take 1 = ['/'] →
      (convert_local_path cwd root remote).data.take 1 = ['/']) ∧
    (∀ (cwd root remote : String) (rcs : List (List Char)),
      root.data = '/' :: joinSlashC rcs → rcs ≠ [] →
      (∀ x ∈ rcs, x ≠ [] ∧ x ≠ ['.'] ∧ x ≠ ['.', '.'] ∧ '/' ∉ x) →
      remote.data.take 1 ≠ ['/'] →
      (∀ x ∈ splitSlash remote.data, x ≠ ['.', '.']) →
      isUnder root (convert_local_path cwd root remote) = true) := by
  constructor
  · intro cwd root remote h
    show (os_abspath cwd.data (os_join root.data remote.data)).take 1 = ['/']
    have hja := os_join_abs root.data remote.data h
    unfold os_abspath
    rw [if_pos hja]
    exact normpath_abs _ hja
  · intro cwd root remote rcs hroot hne hrcs hrel hnodd
    have hlast : root.data.getLast? ≠ some '/' := by
      obtain ⟨t, c, hshape, hc⟩ :=
        joinSlashC_last_shape rcs (fun x hx => ⟨(hrcs x hx).1, (hrcs x hx).2.2.2⟩) hne
      rw [hroot, hshape]
      have hre : ('/' :: (t ++ [c])) = ('/' :: t) ++ [c] := by simp
      rw [hre, List.getLast?_concat]
      simp [hc]
    have hj : os_join root.data remote.data
        = '/' :: (joinSlashC rcs ++ '/' :: remote.data) := by
      unfold os_join
      rw [if_neg hrel]
      have hnn : ¬(root.data = [] ∨ root.data.getLast? = some '/') := by
        rw [hroot]
        push_neg
        exact ⟨by simp, by rw [← hroot]; exact hlast⟩
      rw [if_neg hnn, hroot]
      simp
    have hja : (os_join root.data remote.data).take 1 = ['/'] := by rw [hj]; rfl
    have hconv : convert_local_path cwd root remote
        = ⟨normpath ('/' :: (joinSlashC rcs ++ '/' :: remote.data))⟩ := by
      show (⟨os_abspath cwd.data (os_join root.data remote.data)⟩ : String) = _
      unfold os_abspath
      rw [if_pos hja, hj]
    rcases normpath_root_clean rcs remote.data hrcs hne hnodd with hcase | ⟨t, hcase⟩
    · have hself : convert_local_path cwd root remote = root := by
        rw [hconv, hcase, ← hroot]
      rw [hself]
      simp [isUnder]
    · have hdata : normpath ('/' :: (joinSlashC rcs ++ '/' :: remote.data))
          = (root.data ++ ['/']) ++ t := by
        rw [hcase, hroot]
        simp
      have hiu : isUnder root (convert_local_path cwd root remote)
          = (decide (convert_local_path cwd root remote = root)
              || startsWithC (root.data ++ ['/']) ((root.data ++ ['/']) ++ t)) := by
        rw [hconv, hdata]
        rfl
      rw [hiu, startsWithC_append_self]
      simp

/-- Claim C1 witness: root `/data/b` and key `x/y` give an absolute path
inside the root. -/
theorem C1_witness :
    (convert_local_path "/srv" "/data/b" "x/y").data.take 1 = ['/'] ∧
    isUnder "/data/b" (convert_local_path "/srv" "/data/b" "x/y") = true :=
  ⟨C1_theorem.1 "/srv" "/data/b" "x/y" (by decide),
   C1_theorem.2 "/srv" "/data/b" "x/y" [['d', 'a', 't', 'a'], ['b']]
     (by decide) (by decide) (by decide) (by decide) (by decide)⟩

/-! ## C3 — delimiter `/` listing semantics -/

/-- A well-formed path segment: nonempty, not `.` or `..`, slash-free —
exactly what a real directory-entry name can be. -/
def goodSeg (x : String) : Prop :=
  x.data ≠ [] ∧ x.data ≠ ['.'] ∧ x.data ≠ ['.', '.'] ∧ '/' ∉ x.data

instance (x : String) : Decidable (goodSeg x) := by
  unfold goodSeg
  infer_instance

/-- No group produced by a split contains the separator. -/
theorem splitChar_mem_no_sep (sep : Char) : ∀ (l : List Char), ∀ g ∈ splitChar sep l, sep ∉ g := by
  intro l
  induction l with
  | nil => intro g hg; simp [splitChar] at hg; simp [hg]
  | cons c cs ih =>
    intro g hg
    rcases hsc : splitChar sep cs with _ | ⟨g0, gs⟩
    · exact absurd hsc (splitChar_ne_nil sep cs)
    · simp only [splitChar, hsc] at hg
      by_cases hc : c = sep
      · rw [if_pos hc] at hg
        rcases List.mem_cons.mp hg with hg | hg
        · simp [hg]
        · exact ih g (hsc.symm ▸ hg)
      · rw [if_neg hc] at hg
        rcases List.mem_cons.mp hg with hg | hg
        · subst hg
          intro hmem
          rcases List.mem_cons.mp hmem with hmem | hmem
          · exact hc hmem.symm
          · exact ih g0 (hsc.symm ▸ List.mem_cons_self g0 gs) hmem
        · exact ih g (hsc.symm ▸ List.mem_cons.mpr (Or.inr hg))

/-- Every segment `segsOf` produces is a well-formed name. -/
theorem segsOf_good : ∀ (s : String), ∀ x ∈ segsOf s, goodSeg x := by
  intro s
  have main : ∀ (comps : List (List Char)) (acc : List String),
      (∀ g ∈ comps, '/' ∉ g) → (∀ x ∈ acc, goodSeg x) →
      ∀ x ∈ comps.foldl
        (fun acc comp =>
          if comp = [] ∨ comp = ['.'] then acc
          else if comp = ['.', '.'] then acc.dropLast
          else acc ++ [(⟨comp⟩ : String)]) acc, goodSeg x := by
    intro comps
    induction comps with
    | nil => intro acc _ hacc x hx; exact hacc x hx
    | cons g gs ih =>
      intro acc hg hacc
      simp only [List.foldl_cons]
      by_cases h1 : g = [] ∨ g = ['.']
      · rw [if_pos h1]
        exact ih acc (fun z hz => hg z (by simp [hz])) hacc
      · rw [if_neg h1]
        by_cases h2 : g = ['.', '.']
        · rw [if_pos h2]
          exact ih acc.dropLast (fun z hz => hg z (by simp [hz]))
            (fun x hx => hacc x (List.dropLast_subset acc hx))
        · rw [if_neg h2]
          push_neg at h1
          refine ih (acc ++ [⟨g⟩]) (fun z hz => hg z (by simp [hz])) ?_
          intro x hx
          rcases List.mem_append.mp hx with hx | hx
          · exact hacc x hx
          · simp only [List.mem_singleton] at hx
            subst hx
            exact ⟨h1.1, h1.2, h2, hg g (by simp)⟩
  exact main (splitSlash s.data) [] (splitChar_mem_no_sep '/' s.data) (by simp)

/-- String-level and char-level slash-joins agree. -/
theorem joinSlash_data : ∀ (l : List String),
    (joinSlash l).data = joinSlashC (l.map String.data) := by
  intro l
  induction l with
  | nil => rfl
  | cons x xs ih =>
    cases xs with
    | nil => rfl
    | cons y ys =>
      simp only [joinSlash, List.map_cons, joinSlashC, String.data_append, ih]
      simp

/-- The `segsOf` component loop over well-formed components appends them
all, wrapped back into strings. -/
theorem foldl_segsStep : ∀ (comps : List (List Char)) (acc : List String),
    (∀ g ∈ comps, g ≠ [] ∧ g ≠ ['.'] ∧ g ≠ ['.', '.']) →
    comps.foldl
      (fun acc comp =>
        if comp = [] ∨ comp = ['.'] then acc
        else if comp = ['.', '.'] then acc.dropLast
        else acc ++ [(⟨comp⟩ : String)]) acc
      = acc ++ comps.map (fun g => (⟨g⟩ : String)) := by
  intro comps
  induction comps with
  | nil => intro acc _; simp
  | cons g gs ih =>
    intro acc h
    obtain ⟨h1, h2, h3⟩ := h g (by simp)
    simp only [List.foldl_cons, List.map_cons]
    rw [if_neg (by simp [h1, h2]), if_neg h3,
      ih (acc ++ [(⟨g⟩ : String)]) (fun z hz => h z (by simp [hz]))]
    simp

/-- Splitting a slash-joined list of well-formed segments recovers it. -/
theorem segsOf_joinSlash (l : List String) (hl : ∀ x ∈ l, goodSeg x) :
    segsOf (joinSlash l) = l := by
  cases hln : l with
  | nil => rfl
  | cons x xs =>
    unfold segsOf
    rw [joinSlash_data, splitSlash_joinSlashC]
    · rw [foldl_segsStep]
      · simp only [List.nil_append]
        rw [List.map_map]
        have : (String.mk ∘ String.data) = id := by
          funext s; rfl
        rw [this, List.map_id]
      · intro g hg
        simp only [List.mem_map] at hg
        obtain ⟨s, hs, hgs⟩ := hg
        obtain ⟨a1, a2, a3, _⟩ := hl s (hln ▸ hs)
        exact hgs ▸ ⟨a1, a2, a3⟩
    · intro g hg
      simp only [List.mem_map] at hg
      obtain ⟨s, hs, hgs⟩ := hg
      exact hgs ▸ (hl s (hln ▸ hs)).2.2.2
    · simp [hln]

/-- With distinct keys, lookup of a member key finds exactly its value. -/
theorem alookup_of_mem_nodup {α : Type} (l : List (String × α)) (k : String) (v : α)
    (hnodup : (l.map Prod.fst).Nodup) (hmem : (k, v) ∈ l) : alookup l k = some v := by
  induction l with
  | nil => simp at hmem
  | cons p rest ih =>
    rcases p with ⟨k0, v0⟩
    rcases List.mem_cons.mp hmem with hm | hm
    · rw [Prod.mk.injEq] at hm
      simp [alookup, hm.1, hm.2]
    · simp only [List.map_cons, List.nodup_cons] at hnodup
      have hk : k0 ≠ k := by
        intro he
        exact hnodup.1 (he ▸ (List.mem_map.mpr ⟨(k, v), hm, rfl⟩))
      simp [alookup, hk, ih hnodup.2 hm]

/-- A slash-join of `n` slash-free segments contains `n - 1` slashes, so
keys of different component counts are distinct strings. -/
theorem countSlash_joinSlash : ∀ (l : List String), (∀ x ∈ l, '/' ∉ x.data) →
    countSlash (joinSlash l) = l.length - 1 := by
  intro l
  induction l with
  | nil => intro _; rfl
  | cons x xs ih =>
    intro h
    cases xs with
    | nil =>
      simp only [joinSlash, countSlash, List.length_singleton]
      simp [List.count_eq_zero.mpr (h x (by simp))]
    | cons y ys =>
      have hx : countSlash x = 0 := List.count_eq_zero.mpr (h x (by simp))
      have hih := ih (fun z hz => h z (by simp [hz]))
      simp only [joinSlash, countSlash, String.data_append] at hx hih ⊢
      rw [List.count_append, List.count_append, hx]
      have : List.count '/' ("/" : String).data = 1 := rfl
      rw [this, hih]
      simp only [List.length_cons]
      omega

/-- The listing entry built for an immediate regular-file child of the
prefix directory. -/
theorem buildEntry_of_child (c : Ctx) (fs : FSNode) (ps : List String)
    (ch : List (String × FSNode)) (n : String) (content : List Nat) (mt : Int)
    (hres : resolve fs ps = some (.dir ch))
    (hnodup : (ch.map Prod.fst).Nodup)
    (hps : ∀ x ∈ ps, goodSeg x) (hn : goodSeg n)
    (hmem : (n, FSNode.file content mt) ∈ ch) :
    buildEntry c fs (joinSlash (ps ++ [n])) =
      .ok ⟨joinSlash (ps ++ [n]), c.isoOf mt,
        "&quot;" ++ c.md5hex content ++ "&quot;", toString content.length, "Standard"⟩ := by
  have hgood : ∀ x ∈ ps ++ [n], goodSeg x := by
    intro x hx
    rcases List.mem_append.mp hx with hx | hx
    · exact hps x hx
    · simp only [List.mem_singleton] at hx
      exact hx ▸ hn
  have hsegs : segsOf (joinSlash (ps ++ [n])) = ps ++ [n] := segsOf_joinSlash _ hgood
  have hresolve : resolve fs (ps ++ [n]) = some (.file content mt) := by
    rw [resolve_append, hres]
    simp [resolve, alookup_of_mem_nodup ch n _ hnodup hmem]
  unfold buildEntry
  rw [hsegs, hresolve]

/-- The XML loop over the file children of the prefix directory produces
exactly one entry per file child, in order. -/
theorem mapMEx_listing (c : Ctx) (fs : FSNode) (ps : List String)
    (ch : List (String × FSNode))
    (hres : resolve fs ps = some (.dir ch))
    (hnodup : (ch.map Prod.fst).Nodup)
    (hps : ∀ x ∈ ps, goodSeg x) :
    ∀ (sub : List (String × FSNode)), (∀ q ∈ sub, q ∈ ch) → (∀ q ∈ sub, goodSeg q.1) →
    mapMEx (buildEntry c fs)
        (sub.filterMap (fun q =>
          if isDirN q.2 then none else some (joinSlash (ps ++ [q.1]))))
      = .ok (sub.filterMap (fun q =>
          match q.2 with
          | .file content mt => some ⟨joinSlash (ps ++ [q.1]), c.isoOf mt,
              "&quot;" ++ c.md5hex content ++ "&quot;", toString content.length, "Standard"⟩
          | .dir _ => none)) := by
  intro sub
  induction sub with
  | nil => intro _ _; rfl
  | cons q rest ih =>
    intro hin hgood
    rcases q with ⟨n, node⟩
    have ih2 := ih (fun z hz => hin z (by simp [hz])) (fun z hz => hgood z (by simp [hz]))
    cases node with
    | dir ch2 =>
      have hfm1 : List.filterMap
          (fun q => if isDirN q.2 then none else some (joinSlash (ps ++ [q.1])))
          ((n, FSNode.dir ch2) :: rest)
          = List.filterMap
            (fun q => if isDirN q.2 then none else some (joinSlash (ps ++ [q.1]))) rest := rfl
      have hfm2 : List.filterMap
          (fun q =>
            match q.2 with
            | FSNode.file content mt => some (⟨joinSlash (ps ++ [q.1]), c.isoOf mt,
                "&quot;" ++ c.md5hex content ++ "&quot;", toString content.length,
                "Standard"⟩ : Entry)
            | FSNode.dir _ => none) ((n, FSNode.dir ch2) :: rest)
          = List.filterMap
            (fun q =>
              match q.2 with
              | FSNode.file content mt => some (⟨joinSlash (ps ++ [q.1]), c.isoOf mt,
                  "&quot;" ++ c.md5hex content ++ "&quot;", toString content.length,
                  "Standard"⟩ : Entry)
              | FSNode.dir _ => none) rest := rfl
      rw [hfm1, hfm2]
      exact ih2
    | file content mt =>
      have hbe := buildEntry_of_child c fs ps ch n content mt hres hnodup hps
        (hgood (n, .file content mt) (by simp)) (hin (n, .file content mt) (by simp))
      have hfm1 : List.filterMap
          (fun q => if isDirN q.2 then none else some (joinSlash (ps ++ [q.1])))
          ((n, FSNode.file content mt) :: rest)
          = joinSlash (ps ++ [n]) :: List.filterMap
            (fun q => if isDirN q.2 then none else some (joinSlash (ps ++ [q.1]))) rest := rfl
      have hfm2 : List.filterMap
          (fun q =>
            match q.2 with
            | FSNode.file content mt => some (⟨joinSlash (ps ++ [q.1]), c.isoOf mt,
                "&quot;" ++ c.md5hex content ++ "&quot;", toString content.length,
                "Standard"⟩ : Entry)
            | FSNode.dir _ => none) ((n, FSNode.file content mt) :: rest)
          = (⟨joinSlash (ps ++ [n]), c.isoOf mt,
              "&quot;" ++ c.md5hex content ++ "&quot;", toString content.length,
              "Standard"⟩ : Entry) :: List.filterMap
            (fun q =>
              match q.2 with
              | FSNode.file content mt => some (⟨joinSlash (ps ++ [q.1]), c.isoOf mt,
                  "&quot;" ++ c.md5hex content ++ "&quot;", toString content.length,
                  "Standard"⟩ : Entry)
              | FSNode.dir _ => none) rest := rfl
      rw [hfm1, hfm2]
      simp only [mapMEx]
      rw [hbe, ih2]

/-- Claim C3: listing with delimiter exactly `/` and a prefix naming a
directory of the bucket tree enumerates only that directory's immediate
children — each immediate subdirectory contributes exactly one
common-prefix entry (its bucket-relative path plus a trailing `/`), each
immediate regular file exactly one object entry, and no file deeper than
one level below the prefix appears among the objects. -/
theorem C3_theorem (c : Ctx) (req : Req) (bn p : String)
    (fs : FSNode) (ch : List (String × FSNode))
    (hdelim : argGet req.args "delimiter" "" = "/")
    (hmax : argGet req.args "max-keys" "1000" = "1000")
    (hpfx : argGet req.args "prefix" "" = p)
    (hres : resolve fs (segsOf p) = some (.dir ch))
    (hnames : ∀ q ∈ ch, goodSeg q.1)
    (hnodup : (ch.map Prod.fst).Nodup) :
    listing_object c req bn fs =
      .ok (.listing bn p "/"
        (toString (ch.filterMap (fun q =>
          if isDirN q.2 then none else some (joinSlash (segsOf p ++ [q.1])))).length)
        "1000"
        (ch.filterMap (fun q =>
          match q.2 with
          | .file content mt => some (⟨joinSlash (segsOf p ++ [q.1]), c.isoOf mt,
              "&quot;" ++ c.md5hex content ++ "&quot;", toString content.length,
              "Standard"⟩ : Entry)
          | .dir _ => none))
        (ch.filterMap (fun q =>
          if isDirN q.2 then some (joinSlash (segsOf p ++ [q.1]) ++ "/") else none))) ∧
    (∀ (d : String) (rest : List String) (content : List Nat) (mt : Int),
      resolve fs (segsOf p ++ d :: rest) = some (.file content mt) → rest ≠ [] →
      goodSeg d → (∀ x ∈ rest, goodSeg x) →
      joinSlash (segsOf p ++ d :: rest) ∉
        ch.filterMap (fun q =>
          if isDirN q.2 then none else some (joinSlash (segsOf p ++ [q.1])))) := by
  have hps := segsOf_good p
  constructor
  · have hmap := mapMEx_listing c fs (segsOf p) ch hres hnodup hps ch
      (fun q hq => hq) hnames
    simp only [listing_object, hdelim, hmax, hpfx, hres, hmap,
      if_neg (show ¬("/" : String) = "" by decide),
      if_pos (show ("/" : String) = "/" from rfl)]
    simp only [if_true]
    rw [hmap]
  · intro d rest content mt hdeep hrest hd hgood hmem
    simp only [List.mem_filterMap] at hmem
    obtain ⟨q, hq, hval⟩ := hmem
    by_cases hdir : isDirN q.2
    · simp [hdir] at hval
    · simp only [hdir, Bool.false_eq_true, if_false, Option.some.injEq] at hval
      have hc1 : countSlash (joinSlash (segsOf p ++ [q.1])) = (segsOf p).length := by
        rw [countSlash_joinSlash]
        · simp
        · intro x hx
          rcases List.mem_append.mp hx with hx | hx
          · exact (hps x hx).2.2.2
          · simp only [List.mem_singleton] at hx
            exact hx ▸ (hnames q hq).2.2.2
      have hc2 : countSlash (joinSlash (segsOf p ++ d :: rest))
          = (segsOf p).length + rest.length := by
        rw [countSlash_joinSlash]
        · simp
        · intro x hx
          rcases List.mem_append.mp hx with hx | hx
          · exact (hps x hx).2.2.2
          · rcases List.mem_cons.mp hx with hx | hx
            · exact hx ▸ hd.2.2.2
            · exact (hgood x hx).2.2.2
      rw [hval] at hc1
      rw [hc1] at hc2
      have hlen : rest.length = 0 := by omega
      exact hrest (List.length_eq_zero.mp hlen)

/-- Claim C3 witness: the spec's example — files `a/x`, `a/y` and
subdirectory `a/b` containing `z`, listed with delimiter `/` and prefix
`a/`, yields objects `a/x`, `a/y` and common prefix `a/b/`, while `a/b/z`
is not an object. -/
theorem C3_witness :
    listing_object ⟨⟨"vh", []⟩, fun _ _ => "S", fun _ => some 0, fun _ => "D", fun _ => "T", 0⟩
      ⟨[], [("delimiter", "/"), ("prefix", "a/")], []⟩ "bucket"
      (.dir [("a", .dir [("x", .file [1] 0), ("y", .file [2] 0),
        ("b", .dir [("z", .file [3] 0)])])]) =
      .ok (.listing "bucket" "a/" "/" "2" "1000"
        [⟨"a/x", "T", "&quot;D&quot;", "1", "Standard"⟩,
         ⟨"a/y", "T", "&quot;D&quot;", "1", "Standard"⟩]
        ["a/b/"]) ∧
    ("a/b/z" : String) ∉ ["a/x", "a/y"] := by
  have h := C3_theorem
    ⟨⟨"vh", []⟩, fun _ _ => "S", fun _ => some 0, fun _ => "D", fun _ => "T", 0⟩
    ⟨[], [("delimiter", "/"), ("prefix", "a/")], []⟩ "bucket" "a/"
    (.dir [("a", .dir [("x", .file [1] 0), ("y", .file [2] 0),
      ("b", .dir [("z", .file [3] 0)])])])
    [("x", .file [1] 0), ("y", .file [2] 0), ("b", .dir [("z", .file [3] 0)])]
    rfl rfl rfl rfl (by decide) (by decide)
  exact ⟨h.1, h.2 "b" ["z"] [3] 0 rfl (by decide) (by decide) (by decide)⟩

/-! ## C5 — canonical amz headers -/

/-- Characters occurring in HTTP header names as werkzeug rebuilds them
(dash, digits, latin letters). -/
def headerAlphabet : List Char :=
  "-0123456789ABCDEFGHIJKLMNOPQRSTUVWXYZabcdefghijklmnopqrstuvwxyz".data

/-- ASCII upper-case letter test. -/
def isUpperB (c : Char) : Bool := decide (65 ≤ c.toNat) && decide (c.toNat ≤ 90)

/-- ASCII lower-case letter test. -/
def isLowerB (c : Char) : Bool := decide (97 ≤ c.toNat) && decide (c.toNat ≤ 122)

/-- ASCII letter test (Python `str.isalpha` on the header alphabet). -/
def isAlphaB (c : Char) : Bool := isUpperB c || isLowerB c

/-- One character of a werkzeug-canonical header name, given whether the
previous character was a non-letter (`.title()` word start). -/
def okCharB (s : Bool) (c : Char) : Bool :=
  headerAlphabet.contains c && (!(isAlphaB c) || (if s then isUpperB c else isLowerB c))

/-- A char list is a fixed point of werkzeug's `.title()` normalization
over the header alphabet, starting from word-start state `s`. -/
def canonAux : Bool → List Char → Bool
  | _, [] => true
  | s, c :: cs => okCharB s c && canonAux (!isAlphaB c) cs

/-- A header name exactly as werkzeug's `EnvironHeaders` delivers it:
title-cased over the header alphabet.  `request.headers.items()` only ever
yields such names, whatever case the client sent. -/
def canonName (n : String) : Prop := canonAux true n.data = true

instance (n : String) : Decidable (canonName n) := by
  unfold canonName
  infer_instance

/-- Werkzeug's `.title()` normalization itself (state = at word start). -/
def titleAux : Bool → List Char → List Char
  | _, [] => []
  | s, c :: cs =>
    (if isAlphaB c then (if s then Char.toUpper c else Char.toLower c) else c)
      :: titleAux (!isAlphaB c) cs

set_option maxRecDepth 4000 in
/-- Character-level check (by computation over the whole alphabet): on
state-consistent characters, ASCII lower-casing preserves the code-point
order. -/
theorem charCmpAll : (List.all [true, false] (fun s =>
    headerAlphabet.all (fun c => headerAlphabet.all (fun d =>
      !(okCharB s c) || !(okCharB s d) ||
        (decide (c.toNat < d.toNat)
          == decide ((Char.toLower c).toNat < (Char.toLower d).toNat)))))) = true := by
  decide

set_option maxRecDepth 4000 in
/-- Character-level check: on a state-consistent character, lower-casing
then re-title-casing restores the character, and letterhood is preserved. -/
theorem charTitleAll : (List.all [true, false] (fun s => headerAlphabet.all (fun c =>
    !(okCharB s c) || ((isAlphaB (Char.toLower c) == isAlphaB c) &&
      ((if isAlphaB (Char.toLower c) then
          (if s then Char.toUpper (Char.toLower c) else Char.toLower (Char.toLower c))
        else Char.toLower c) == c))))) = true := by
  decide

/-- Code points identify characters. -/
theorem char_toNat_inj (c d : Char) (h : c.toNat = d.toNat) : c = d :=
  Char.ext (UInt32.toNat.inj h)

/-- A state-consistent character belongs to the header alphabet. -/
theorem mem_of_okCharB (s : Bool) (c : Char) (h : okCharB s c = true) : c ∈ headerAlphabet := by
  simp only [okCharB, Bool.and_eq_true] at h
  obtain ⟨a, ha, hbeq⟩ := List.contains_iff_exists_mem_beq.mp h.1
  exact (beq_iff_eq.mp hbeq) ▸ ha

/-- Pointwise form of `charCmpAll`. -/
theorem charCmp (s : Bool) (c d : Char) (hc : okCharB s c = true) (hd : okCharB s d = true) :
    (c.toNat < d.toNat) ↔ ((Char.toLower c).toNat < (Char.toLower d).toNat) := by
  have hall := charCmpAll
  simp only [List.all_eq_true] at hall
  have h3 := hall s (by cases s <;> simp) c (mem_of_okCharB s c hc) d (mem_of_okCharB s d hd)
  simp only [hc, hd, Bool.not_true, Bool.false_or] at h3
  have h4 := beq_iff_eq.mp h3
  exact decide_eq_decide.mp h4

/-- Pointwise form of `charTitleAll`. -/
theorem charTitle (s : Bool) (c : Char) (hc : okCharB s c = true) :
    isAlphaB (Char.toLower c) = isAlphaB c ∧
    (if isAlphaB (Char.toLower c) then
        (if s then Char.toUpper (Char.toLower c) else Char.toLower (Char.toLower c))
      else Char.toLower c) = c := by
  have hall := charTitleAll
  simp only [List.all_eq_true] at hall
  have h3 := hall s (by cases s <;> simp) c (mem_of_okCharB s c hc)
  simp only [hc, Bool.not_true, Bool.false_or, Bool.and_eq_true] at h3
  exact ⟨beq_iff_eq.mp h3.1, beq_iff_eq.mp h3.2⟩

/-- Python string `<` is asymmetric. -/
theorem lexLt_asymm : ∀ (a b : List Char), lexLt a b = true → lexLt b a = false := by
  intro a
  induction a with
  | nil => intro b h; cases b <;> simp [lexLt] at h ⊢
  | cons c cs ih =>
    intro b h
    cases b with
    | nil => simp [lexLt] at h
    | cons d ds =>
      simp only [lexLt] at h ⊢
      by_cases h1 : c.toNat < d.toNat
      · rw [if_neg (by omega), if_pos h1]
      · rw [if_neg h1] at h
        by_cases h2 : d.toNat < c.toNat
        · rw [if_pos h2] at h; exact absurd h (by simp)
        · rw [if_neg h2] at h
          rw [if_neg h2, if_neg h1]
          exact ih ds h

/-- Python string `<` is connected: mutually incomparable strings are
equal. -/
theorem lexLt_conn : ∀ (a b : List Char), lexLt a b = false → lexLt b a = false → a = b := by
  intro a
  induction a with
  | nil => intro b h1 _; cases b with
    | nil => rfl
    | cons d ds => simp [lexLt] at h1
  | cons c cs ih =>
    intro b h1 h2
    cases b with
    | nil => simp [lexLt] at h2
    | cons d ds =>
      simp only [lexLt] at h1 h2
      by_cases hcd : c.toNat < d.toNat
      · rw [if_pos hcd] at h1; exact absurd h1 (by simp)
      · by_cases hdc : d.toNat < c.toNat
        · rw [if_pos hdc] at h2; exact absurd h2 (by simp)
        · rw [if_neg hcd, if_neg hdc] at h1
          have hc : c = d := char_toNat_inj c d (by omega)
          rw [if_neg hdc, if_neg hcd] at h2
          rw [hc, ih ds h1 h2]

/-- Python string `<` is transitive. -/
theorem lexLt_trans : ∀ (a b c : List Char),
    lexLt a b = true → lexLt b c = true → lexLt a c = true := by
  intro a
  induction a with
  | nil => intro b c h1 h2; cases b with
    | nil => simp [lexLt] at h1
    | cons d ds =>
      cases c with
      | nil => simp [lexLt] at h2
      | cons e es => simp [lexLt]
  | cons x xs ih =>
    intro b c h1 h2
    cases b with
    | nil => simp [lexLt] at h1
    | cons y ys =>
      cases c with
      | nil => simp [lexLt] at h2
      | cons z zs =>
        simp only [lexLt] at h1 h2 ⊢
        by_cases hxy : x.toNat < y.toNat
        · by_cases hyz : y.toNat < z.toNat
          · rw [if_pos (by omega)]
          · rw [if_neg hyz] at h2
            by_cases hzy : z.toNat < y.toNat
            · rw [if_pos hzy] at h2; exact absurd h2 (by simp)
            · have hyzeq : y = z := char_toNat_inj y z (by omega)
              rw [if_pos (hyzeq ▸ hxy)]
        · rw [if_neg hxy] at h1
          by_cases hyx : y.toNat < x.toNat
          · rw [if_pos hyx] at h1; exact absurd h1 (by simp)
          · rw [if_neg hyx] at h1
            have hxyeq : x = y := char_toNat_inj x y (by omega)
            subst hxyeq
            by_cases hxz : x.toNat < z.toNat
            · rw [if_pos hxz]
            · rw [if_neg hxz] at h2 ⊢
              by_cases hzx : z.toNat < x.toNat
              · rw [if_pos hzx] at h2; exact absurd h2 (by simp)
              · rw [if_neg hzx] at h2 ⊢
                exact ih ys zs h1 h2

/-- On werkzeug-canonical names, comparing lower-cased names orders them
exactly like the stored names. -/
theorem lexLt_lower (s : Bool) : ∀ (a b : List Char), canonAux s a = true → canonAux s b = true →
    lexLt (a.map Char.toLower) (b.map Char.toLower) = lexLt a b := by
  intro a
  induction a generalizing s with
  | nil => intro b _ _; cases b <;> simp [lexLt]
  | cons c cs ih =>
    intro b hca hcb
    cases b with
    | nil => simp [lexLt]
    | cons d ds =>
      simp only [canonAux, Bool.and_eq_true] at hca hcb
      simp only [List.map_cons, lexLt]
      by_cases h1 : c.toNat < d.toNat
      · rw [if_pos h1, if_pos ((charCmp s c d hca.1 hcb.1).mp h1)]
      · rw [if_neg h1, if_neg (fun hl => h1 ((charCmp s c d hca.1 hcb.1).mpr hl))]
        by_cases h2 : d.toNat < c.toNat
        · rw [if_pos h2, if_pos ((charCmp s d c hcb.1 hca.1).mp h2)]
        · rw [if_neg h2, if_neg (fun hl => h2 ((charCmp s d c hcb.1 hca.1).mpr hl))]
          have hcd : c = d := char_toNat_inj c d (by omega)
          subst hcd
          exact ih (!isAlphaB c) ds hca.2 hcb.2

/-- `<=` on strings is transitive. -/
theorem strLe_trans (x y z : String) (h1 : strLe x y = true) (h2 : strLe y z = true) :
    strLe x z = true := by
  simp only [strLe, strLt, Bool.not_eq_true'] at h1 h2 ⊢
  cases hzx : lexLt z.data x.data with
  | false => rfl
  | true =>
    cases hyz : lexLt y.data z.data with
    | true => rw [lexLt_trans y.data z.data x.data hyz hzx] at h1; exact h1
    | false =>
      rw [lexLt_conn y.data z.data hyz h2] at h1
      rw [hzx] at h1
      exact h1

/-- `<=` on strings is total. -/
theorem strLe_total (x y : String) : strLe x y = true ∨ strLe y x = true := by
  simp only [strLe, strLt, Bool.not_eq_true']
  cases hxy : lexLt y.data x.data with
  | false => exact Or.inl rfl
  | true =>
    right
    exact lexLt_asymm y.data x.data hxy

/-- `<=` on strings is antisymmetric. -/
theorem strLe_antisymm (x y : String) (h1 : strLe x y = true) (h2 : strLe y x = true) :
    x = y := by
  simp only [strLe, strLt, Bool.not_eq_true'] at h1 h2
  have hd := lexLt_conn x.data y.data h2 h1
  cases x; cases y
  simp only at hd
  simp [hd]

/-- `<` on strings is asymmetric. -/
theorem strLt_asymm (x y : String) (h : strLt x y = true) : strLt y x = false :=
  lexLt_asymm x.data y.data h

/-- `<` on strings is transitive. -/
theorem strLt_trans (x y z : String) (h1 : strLt x y = true) (h2 : strLt y z = true) :
    strLt x z = true :=
  lexLt_trans x.data y.data z.data h1 h2

/-- `<` on strings is connected. -/
theorem strLt_conn (x y : String) (h1 : strLt x y = false) (h2 : strLt y x = false) : x = y := by
  have hd := lexLt_conn x.data y.data h1 h2
  cases x; cases y
  simp only at hd
  simp [hd]

instance : IsTrans (String × String) pairLe where
  trans := by
    intro a b c hab hbc
    simp only [pairLe, pairLeB] at hab hbc ⊢
    by_cases h1 : a.1 = b.1 <;> by_cases h2 : b.1 = c.1
    · rw [if_pos h1] at hab
      rw [if_pos h2] at hbc
      rw [if_pos (h1.trans h2)]
      exact strLe_trans _ _ _ hab hbc
    · rw [if_pos h1] at hab
      rw [if_neg h2] at hbc
      rw [if_neg (fun he => h2 (h1 ▸ he)), h1]
      exact hbc
    · rw [if_neg h1] at hab
      rw [if_pos h2] at hbc
      rw [if_neg (fun he => h1 (h2 ▸ he)), ← h2]
      exact hab
    · rw [if_neg h1] at hab
      rw [if_neg h2] at hbc
      have hac : strLt a.1 c.1 = true := strLt_trans _ _ _ hab hbc
      have hne : a.1 ≠ c.1 := by
        intro he
        rw [he] at hab
        have hasym := strLt_asymm c.1 b.1 hab
        rw [hasym] at hbc
        exact absurd hbc (by simp)
      rw [if_neg hne]
      exact hac

instance : IsTotal (String × String) pairLe where
  total := by
    intro a b
    simp only [pairLe, pairLeB]
    by_cases h1 : a.1 = b.1
    · rw [if_pos h1, if_pos h1.symm]
      exact strLe_total a.2 b.2
    · rw [if_neg h1, if_neg (fun he => h1 he.symm)]
      cases hab : strLt a.1 b.1 with
      | true => exact Or.inl rfl
      | false =>
        cases hba : strLt b.1 a.1 with
        | true => exact Or.inr rfl
        | false => exact absurd (strLt_conn a.1 b.1 hab hba) h1

instance : IsAntisymm (String × String) pairLe where
  antisymm := by
    intro a b hab hba
    simp only [pairLe, pairLeB] at hab hba
    by_cases h1 : a.1 = b.1
    · rw [if_pos h1] at hab
      rw [if_pos h1.symm] at hba
      have h2 := strLe_antisymm a.2 b.2 hab hba
      exact Prod.ext h1 h2
    · rw [if_neg h1] at hab
      rw [if_neg (fun he => h1 he.symm)] at hba
      rw [strLt_asymm a.1 b.1 hab] at hba
      exact absurd hba (by simp)

/-- Comparison by lower-cased header name — the order the spec's words
describe. -/
def specLeB (a b : String × String) : Bool := strLe (lowerStr a.1) (lowerStr b.1)

/-- Propositional form of `specLeB`. -/
def specLe (a b : String × String) : Prop := specLeB a b = true

instance : DecidableRel specLe := fun a b =>
  inferInstanceAs (Decidable (specLeB a b = true))

instance : IsTrans (String × String) specLe where
  trans := fun _ _ _ hab hbc => strLe_trans _ _ _ hab hbc

instance : IsTotal (String × String) specLe where
  total := fun a b => strLe_total (lowerStr a.1) (lowerStr b.1)

/-- Word-start state after consuming a char list. -/
def stateAfter (s : Bool) : List Char → Bool
  | [] => s
  | c :: cs => stateAfter (!isAlphaB c) cs

/-- `.title()` processes a concatenation left to right. -/
theorem titleAux_append (s : Bool) : ∀ (a b : List Char),
    titleAux s (a ++ b) = titleAux s a ++ titleAux (stateAfter s a) b := by
  intro a
  induction a generalizing s with
  | nil => intro b; rfl
  | cons c cs ih =>
    intro b
    simp only [List.cons_append, titleAux, stateAfter, List.append_eq, ih]

/-- Re-title-casing the lower-cased form of a canonical name restores it. -/
theorem titleAux_of_canon : ∀ (n : List Char) (s : Bool), canonAux s n = true →
    titleAux s (n.map Char.toLower) = n := by
  intro n
  induction n with
  | nil => intro s _; rfl
  | cons c cs ih =>
    intro s h
    simp only [canonAux, Bool.and_eq_true] at h
    obtain ⟨halpha, hhead⟩ := charTitle s c h.1
    simp only [List.map_cons, titleAux]
    rw [hhead, halpha]
    exact congrArg (c :: ·) (ih (!isAlphaB c) h.2)

/-- `startswith` means being an initial segment. -/
theorem startsWithC_iff_append (p s : List Char) :
    startsWithC p s = true ↔ ∃ t, s = p ++ t := by
  constructor
  · intro h
    induction p generalizing s with
    | nil => exact ⟨s, rfl⟩
    | cons c cs ih =>
      cases s with
      | nil => simp [startsWithC] at h
      | cons d ds =>
        simp only [startsWithC, Bool.and_eq_true, decide_eq_true_eq] at h
        obtain ⟨t, ht⟩ := ih ds h.2
        exact ⟨t, by simp [h.1, ht]⟩
  · rintro ⟨t, rfl⟩
    exact startsWithC_append_self p t

/-- `startswith` is preserved by mapping both strings. -/
theorem startsWithC_map (f : Char → Char) : ∀ (p s : List Char),
    startsWithC p s = true → startsWithC (p.map f) (s.map f) = true := by
  intro p
  induction p with
  | nil => intro s _; rfl
  | cons c cs ih =>
    intro s h
    cases s with
    | nil => simp [startsWithC] at h
    | cons d ds =>
      simp only [startsWithC, Bool.and_eq_true, decide_eq_true_eq] at h
      simp only [List.map_cons, startsWithC, Bool.and_eq_true, decide_eq_true_eq]
      exact ⟨congrArg f h.1, ih ds h.2⟩

/-- On a werkzeug-canonical name, the source's case-sensitive
`startswith('X-Amz-')` coincides with the spec's case-insensitive
vendor-prefix test. -/
theorem canon_amz_pfx (n : List Char) (h : canonAux true n = true) :
    startsWithC ("X-Amz-".data) n = startsWithC ("x-amz-".data) (n.map Char.toLower) := by
  rw [Bool.eq_iff_iff]
  constructor
  · intro hp
    have h2 := startsWithC_map Char.toLower ("X-Amz-".data) n hp
    have h3 : ("X-Amz-".data).map Char.toLower = "x-amz-".data := by decide
    rw [h3] at h2
    exact h2
  · intro hp
    obtain ⟨t, ht⟩ := (startsWithC_iff_append _ _).mp hp
    have hrec := titleAux_of_canon n true h
    rw [ht, titleAux_append] at hrec
    have hx : titleAux true ("x-amz-".data) = "X-Amz-".data := by decide
    rw [hx] at hrec
    rw [← hrec]
    exact startsWithC_append_self _ _

/-- Sorting the selected headers as `(name, value)` tuples (the source)
and sorting them by lower-cased name (the spec) produce the same list,
given distinct canonical names. -/
theorem insertionSort_spec_eq (sel : List (String × String))
    (hcanon : ∀ q ∈ sel, canonName q.1) (hnodup : (sel.map Prod.fst).Nodup) :
    List.insertionSort pairLe sel = List.insertionSort specLe sel := by
  apply List.eq_of_perm_of_sorted (r := pairLe)
    ((List.perm_insertionSort pairLe sel).trans (List.perm_insertionSort specLe sel).symm)
    (List.sorted_insertionSort pairLe sel)
  have hperm := List.perm_insertionSort specLe sel
  have hsorted : List.Pairwise specLe (List.insertionSort specLe sel) :=
    List.sorted_insertionSort specLe sel
  have hnodup2 : ((List.insertionSort specLe sel).map Prod.fst).Nodup :=
    ((hperm.map Prod.fst).nodup_iff).mpr hnodup
  have hpairne : List.Pairwise (fun u v : String × String => u.1 ≠ v.1)
      (List.insertionSort specLe sel) :=
    (List.pairwise_map).mp hnodup2
  refine List.Pairwise.imp_of_mem ?_ (hsorted.and hpairne)
  intro u v hu hv hand
  have hcu : canonName u.1 := hcanon u ((List.mem_insertionSort specLe).mp hu)
  have hcv : canonName v.1 := hcanon v ((List.mem_insertionSort specLe).mp hv)
  show pairLe u v
  unfold pairLe pairLeB
  rw [if_neg hand.2]
  have hspec := hand.1
  unfold specLe specLeB strLe strLt lowerStr at hspec
  simp only [Bool.not_eq_true'] at hspec
  rw [lexLt_lower true v.1.data u.1.data hcv hcu] at hspec
  unfold strLt
  cases hul : lexLt u.1.data v.1.data with
  | true => rfl
  | false =>
    have hd := lexLt_conn u.1.data v.1.data hul hspec
    exact absurd (String.toList_inj.mp hd) hand.2

/-- Folds agree when the step functions agree on the list's members. -/
theorem foldl_congr_mem {α β : Type} (f g : β → α → β) : ∀ (l : List α) (s : β),
    (∀ acc : β, ∀ q ∈ l, f acc q = g acc q) → l.foldl f s = l.foldl g s := by
  intro l
  induction l with
  | nil => intro s _; rfl
  | cons a rest ih =>
    intro s h
    simp only [List.foldl_cons]
    rw [h s a (by simp)]
    exact ih (g s a) (fun acc q hq => h acc q (by simp [hq]))

/-- The canonical-amz-headers algorithm exactly as the spec words it:
select case-insensitively by the lower-cased vendor prefix, sort by the
lower-cased name, emit `name:value` lines.  Defined only to be compared
against the source's `detect_x_amz`. -/
def canonicalAmzSpec (hs : List (String × String)) : String :=
  (List.insertionSort specLe
    (hs.filter (fun q => startsWithS "x-amz-" (lowerStr q.1)))).foldl
    (fun acc q => acc ++ lowerStr q.1 ++ ":" ++ q.2 ++ "\n") ""

/-- Claim C5: for every header mapping as werkzeug delivers it (distinct,
title-case-canonical names), the canonical-amz-headers string built by
`detect_x_amz` equals the spec's algorithm: select every header whose name
case-insensitively starts with the vendor prefix, lower-case the names,
sort by lower-cased name, and emit one `name:value` line per header (empty
result when none match). -/
theorem C5_theorem (hs : List (String × String))
    (hnodup : (hs.map Prod.fst).Nodup)
    (hcanon : ∀ q ∈ hs, canonName q.1) :
    detect_x_amz hs = canonicalAmzSpec hs := by
  unfold detect_x_amz canonicalAmzSpec
  have hfil : hs.filter (fun q => startsWithS "x-amz-" (lowerStr q.1))
      = hs.filter (fun q => startsWithS "X-Amz-" q.1) := by
    apply List.filter_congr
    intro q hq
    show startsWithS "x-amz-" (lowerStr q.1) = startsWithS "X-Amz-" q.1
    unfold startsWithS lowerStr
    exact (canon_amz_pfx q.1.data (hcanon q hq)).symm
  rw [hfil]
  have hsub : ∀ q ∈ hs.filter (fun q => startsWithS "X-Amz-" q.1), q ∈ hs :=
    fun q hq => (List.mem_filter.mp hq).1
  have hselnodup : ((hs.filter (fun q => startsWithS "X-Amz-" q.1)).map Prod.fst).Nodup :=
    List.Nodup.sublist ((List.filter_sublist hs).map Prod.fst) hnodup
  have hsort := insertionSort_spec_eq (hs.filter (fun q => startsWithS "X-Amz-" q.1))
    (fun q hq => hcanon q (hsub q hq)) hselnodup
  rw [← hsort]
  apply foldl_congr_mem
  intro acc q hq
  have hqsel : q ∈ hs.filter (fun q => startsWithS "X-Amz-" q.1) :=
    (List.mem_insertionSort pairLe).mp hq
  have hmem : (q.1, q.2) ∈ hs := by
    have := hsub q hqsel
    simpa using this
  have hget2 : hget hs q.1 = some q.2 := alookup_of_mem_nodup hs q.1 q.2 hnodup hmem
  rw [hget2]
  rfl

/-- Claim C5 witness: a mapping with two vendor headers out of order plus a
`Host` header; both algorithms give `x-amz-alpha:1\nx-amz-meta-b:2\n`. -/
theorem C5_witness :
    detect_x_amz [("X-Amz-Meta-B", "2"), ("Host", "h"), ("X-Amz-Alpha", "1")]
      = canonicalAmzSpec [("X-Amz-Meta-B", "2"), ("Host", "h"), ("X-Amz-Alpha", "1")] :=
  C5_theorem [("X-Amz-Meta-B", "2"), ("Host", "h"), ("X-Amz-Alpha", "1")]
    (by decide) (by decide)
